import Mathlib

/-!
polyseed-examples: the C demo (`src/c/main1.c`) and the C++ demo (`src/cpp/main2.cpp`).

A shallow embedding of the two demonstration programs and of the callbacks
they hand to the polyseed library, followed by the properties proved about
them.

* C strings are modelled by their content: the bytes in front of the
  terminating NUL (`CStr`).
* `polyseed.h`, `polyseed.hpp`, libsodium and utf8proc are not part of the
  sources.  What the demos call from them is a parameter of the embedding
  (`Main1.Lib`, `Main2.Hpp`, the utf8proc calls), and the seed object, its
  accessors, the cipher and the codec are modelled from the specification in
  the namespace `Polyseed`.
-/

/-! C strings -/

/-- A C string, given by the bytes that precede its terminating NUL. -/
structure CStr where
  bytes : List Nat
  nonzero : ∀ b ∈ bytes, b ≠ 0

instance : DecidableEq CStr := fun a b =>
  if h : a.bytes = b.bytes then
    isTrue (by cases a; cases b; simp_all)
  else
    isFalse (fun e => h (by rw [e]))

/-- Byte at position `i` of the memory that holds a C string: the content, then NUL. -/
def CStr.at (s : CStr) (i : Nat) : Nat := s.bytes.getD i 0

/-- The `strlen` of libc: number of bytes in front of the first NUL. -/
def strlen (s : CStr) : Nat := s.bytes.length

/-- The `strcmp` of libc on two byte sequences, the end of a sequence standing
for the terminating NUL: the difference of the first pair of bytes that differ,
0 when there is none. -/
def strcmpBytes : List Nat → List Nat → Int
  | [], [] => 0
  | [], b :: _ => (0 : Int) - (b : Int)
  | a :: _, [] => (a : Int)
  | a :: as, b :: bs => if a = b then strcmpBytes as bs else (a : Int) - (b : Int)

/-- The `strcmp` of libc. -/
def strcmp (a b : CStr) : Int := strcmpBytes a.bytes b.bytes

/-- The string literal `"English"`. -/
def English : CStr := ⟨[69, 110, 103, 108, 105, 115, 104], by decide⟩

/-- The string literal `"password123"`. -/
def password123 : CStr := ⟨[112, 97, 115, 115, 119, 111, 114, 100, 49, 50, 51], by decide⟩

/-! `src/c/main1.c`: the normalisation callbacks -/

namespace Main1

/-- The macro `MIN(a,b) ((a)>(b)?(b):(a))`. -/
def MIN (a b : Nat) : Nat := if a > b then b else a

/-- Largest value of `size_t` (64 bits). -/
def SIZE_MAX : Nat := 2 ^ 64 - 1

/-- Subtraction of two `size_t` values, wrapping around. -/
def size_t_sub (a b : Nat) : Nat := (a % (SIZE_MAX + 1) + (SIZE_MAX + 1) - b % (SIZE_MAX + 1)) % (SIZE_MAX + 1)

/-- The `memcpy(dst, src, n)` of libc: the first `n` bytes of `dst` become the
first `n` bytes of the memory at `src`. -/
def memcpy (dst : List Nat) (src : CStr) (n : Nat) : List Nat :=
  (List.range n).foldl (fun d i => d.set i (src.at i)) dst

/-- What a normalisation callback leaves behind: the returned size, the output
buffer `norm`, and the content of the scratch string `s` when it is freed. -/
structure NormResult where
  size : Nat
  norm : List Nat
  scratch : List Nat
deriving DecidableEq, Repr

/-- The callback `utf8_nfc` (lines 43-52). `utf8proc_NFC` is the library call,
`none` standing for its NULL result, on which `strlen` has no defined
behaviour. `STR_SIZE` is the macro `POLYSEED_STR_SIZE` of `polyseed.h`, the
length of a `polyseed_str`. -/
def utf8_nfc (utf8proc_NFC : CStr → Option CStr) (STR_SIZE : Nat) (str : CStr)
    (norm : List Nat) : Option NormResult :=
  match utf8proc_NFC str with
  | none => none
  | some s =>
    let len := strlen s
    let size := MIN len (size_t_sub STR_SIZE 1)
    let norm := memcpy norm s size
    let norm := norm.set size 0
    let scratch := List.replicate len 0
    some { size := size, norm := norm, scratch := scratch }

/-- The callback `utf8_nfkd` (lines 54-63). -/
def utf8_nfkd (utf8proc_NFKD : CStr → Option CStr) (STR_SIZE : Nat) (str : CStr)
    (norm : List Nat) : Option NormResult :=
  match utf8proc_NFKD str with
  | none => none
  | some s =>
    let len := strlen s
    let size := MIN len (size_t_sub STR_SIZE 1)
    let norm := memcpy norm s size
    let norm := norm.set size 0
    let scratch := List.replicate len 0
    some { size := size, norm := norm, scratch := scratch }

/-- The C string held by a buffer: its bytes up to the first NUL. -/
def cstring_of (buf : List Nat) : List Nat := buf.takeWhile (fun b => b != 0)

end Main1

/-! The seed object and the language registry (`polyseed.h`) -/

namespace Polyseed

/-- Modelled from the spec: normalisation mode of a language (section 3,
"whose canonical word forms are decomposed vs. composed"); the declaration in
`polyseed.h` is not part of the sources. -/
inductive NormalizationMode
  | composed
  | decomposed
deriving DecidableEq, Repr

/-- Modelled from the spec: the type `polyseed_lang` of `polyseed.h`, as the
Language of section 3: display name, English name, word list and
normalisation mode. -/
structure Language where
  name : CStr
  name_en : CStr
  wordlist : List String
  normalization_mode : NormalizationMode
deriving DecidableEq

/-- Modelled from the spec: the type `polyseed_data` of `polyseed.h`, as the
Seed of section 3: secret bytes, coarse timestamp, feature bitset and
encryption flag. -/
structure Seed where
  secret : List Nat
  timestamp : Nat
  features : Nat
  encrypted : Bool
deriving DecidableEq, Repr

/-- Modelled from the spec: `is_encrypted` (`polyseed_is_encrypted`,
`data::encrypted`), missing from the sources: reads the flag `encrypted` of
section 3. -/
def is_encrypted (seed : Seed) : Bool := seed.encrypted

/-- Modelled from the spec: `has_feature` (`polyseed_get_feature`,
`data::has_feature`), missing from the sources: "pure bitset test against
`features`" (section 4.1). -/
def has_feature (seed : Seed) (bit : Nat) : Bool := seed.features &&& bit != 0

end Polyseed

/-! `src/c/main1.c`: language lookup and `main` -/

namespace Main1
open Polyseed

/-- Modelled from the spec: `polyseed_get_num_langs()` of `polyseed.h`, missing
from the sources: the number of languages of the registry (section 4.5). -/
def polyseed_get_num_langs (langs : List Language) : Nat := langs.length

/-- Modelled from the spec: `polyseed_get_lang(i)` of `polyseed.h`, missing from
the sources: the language at index `i` of the registry, in its fixed order
(section 4.5). -/
def polyseed_get_lang (langs : List Language) (i : Nat)
    (h : i < polyseed_get_num_langs langs) : Language :=
  langs.get ⟨i, h⟩

/-- Modelled from the spec: `polyseed_get_lang_name_en(lang)` of `polyseed.h`,
missing from the sources: the English name of a language (section 3). -/
def polyseed_get_lang_name_en (lang : Language) : CStr := lang.name_en

/-- Modelled from the spec: `polyseed_get_lang_name(lang)` of `polyseed.h`,
missing from the sources: the display name of a language (section 3). -/
def polyseed_get_lang_name (lang : Language) : CStr := lang.name

/-- The `for` loop of `get_lang_by_name` (lines 80-88) from index `i` on, with
`todo` iterations left; `none` is the fall through to `return NULL`. -/
def get_lang_by_name.loop (langs : List Language) (name : CStr) : Nat → Nat → Option Language
  | 0, _ => none
  | todo + 1, i =>
    if h : i < polyseed_get_num_langs langs then
      let lang := polyseed_get_lang langs i h
      if 0 = strcmp name (polyseed_get_lang_name_en lang) then
        some lang
      else if 0 = strcmp name (polyseed_get_lang_name lang) then
        some lang
      else
        get_lang_by_name.loop langs name todo (i + 1)
    else
      none

/-- The function `get_lang_by_name` (lines 79-90); `none` is NULL. -/
def get_lang_by_name (langs : List Language) (name : CStr) : Option Language :=
  get_lang_by_name.loop langs name (polyseed_get_num_langs langs) 0

/-- The macro `FEATURE_FOO` (line 92). -/
def FEATURE_FOO : Nat := 1

/-- The macro `FEATURE_BAR` (line 93). -/
def FEATURE_BAR : Nat := 2

/-- The macro `FEATURE_QUX` (line 94). -/
def FEATURE_QUX : Nat := 4

/-- A value of `polyseed_status` other than `POLYSEED_OK`. -/
abbrev polyseed_status := Int

/-- What `main` calls from `polyseed.h` and libsodium; these are not part of
the sources and are parameters of the embedding. A function of the library
that writes through a pointer is given by the value it leaves there. -/
structure Lib where
  /-- Result of `sodium_init()`. -/
  sodium_init : Int
  /-- The language registry behind `polyseed_get_num_langs` and `polyseed_get_lang`. -/
  langs : List Language
  /-- The constant `POLYSEED_MONERO`. -/
  POLYSEED_MONERO : Nat
  /-- The call `polyseed_create(features, &seed)` under the mask given to
  `polyseed_enable_features`: a status other than `POLYSEED_OK`, or the new seed. -/
  polyseed_create : (enabled : Nat) → (features : Nat) → Except polyseed_status Seed
  /-- The call `polyseed_keygen(seed, coin, key_size, key)`: content of `key` afterwards. -/
  polyseed_keygen : Seed → (coin : Nat) → (key_size : Nat) → List Nat
  /-- The call `polyseed_crypt(seed, password)`: the seed afterwards. -/
  polyseed_crypt : Seed → (password : CStr) → Seed
  /-- The call `polyseed_encode(seed, lang, coin, str)` on a language of the
  registry: content of `str` afterwards. -/
  polyseed_encode : Seed → Language → (coin : Nat) → CStr
  /-- The call `polyseed_decode(str, coin, &lang, &seed)`: a status other than
  `POLYSEED_OK`, or the detected language and the new seed. -/
  polyseed_decode : CStr → (coin : Nat) → Except polyseed_status (Language × Seed)

/-- The functions named in the dependency table of `polyseed_init`. -/
inductive Dep
  | randombytes_buf
  | crypto_pbkdf2_sha256
  | sodium_memzero
  | utf8_nfc
  | utf8_nfkd
deriving DecidableEq, Repr

/-- The struct `polyseed_dependency`; `none` is NULL. -/
structure polyseed_dependency where
  randbytes : Option Dep
  pbkdf2_sha256 : Option Dep
  memzero : Option Dep
  u8_nfc : Option Dep
  u8_nfkd : Option Dep
  time : Option Dep
  alloc : Option Dep
  free : Option Dep
deriving DecidableEq, Repr

/-- The two seed pointers of `main`. -/
inductive SeedVar
  | seed1
  | seed2
deriving DecidableEq, Repr

/-- An argument of `printf`. -/
inductive Arg
  | int (v : Int)
  | str (s : CStr)
  | lit (s : String)
deriving DecidableEq

/-- A call made by `main`, with the values passed; a seed pointer is given with
the seed it points to at the time of the call, a language pointer is `none`
when it is NULL. -/
inductive Event
  | sodium_init
  | polyseed_inject (pd : polyseed_dependency)
  | polyseed_enable_features (mask : Nat)
  | polyseed_create (features : Nat)
  | polyseed_keygen (seed : SeedVar) (data : Seed) (coin : Nat) (key_size : Nat)
  | polyseed_crypt (seed : SeedVar) (data : Seed) (password : CStr)
  | polyseed_encode (seed : SeedVar) (data : Seed) (lang : Option Language) (coin : Nat)
  | polyseed_free (seed : SeedVar) (data : Seed)
  | polyseed_decode (phrase : CStr) (coin : Nat)
  | polyseed_get_lang_name_en (lang : Language)
  | polyseed_is_encrypted (seed : SeedVar) (data : Seed)
  | polyseed_get_feature (seed : SeedVar) (data : Seed) (mask : Nat)
  | printf (format : String) (args : List Arg)
deriving DecidableEq

/-- How a run of `main` ends: `return` with a status, or a call whose
behaviour the library does not define (`polyseed_encode` on a NULL language). -/
inductive Outcome
  | returned (status : Int)
  | undefined
deriving DecidableEq, Repr

/-- The state of a run of `main`: the calls made so far in order, the seed
objects obtained and not yet released with `polyseed_free`, and the content of
the buffers `key1` and `key2` (`none`: nothing was written to it). -/
structure St where
  events : List Event
  live : List SeedVar
  key1 : Option (List Nat)
  key2 : Option (List Nat)
deriving DecidableEq

/-- A finished run of `main`: the final state and the way it ends. -/
structure Run extends St where
  outcome : Outcome
deriving DecidableEq

/-- A call that leaves the seed objects and the key buffers alone. -/
def St.call (st : St) (e : Event) : St :=
  { st with events := st.events ++ [e] }

/-- Whether an event is console output. -/
def Event.is_printf : Event → Bool
  | .printf _ _ => true
  | _ => false

/-- The calls of a run in order: its events without the console output. -/
def St.calls (st : St) : List Event :=
  st.events.filter (fun e => !e.is_printf)

/-- The buffer `key1` receives a key. -/
def St.write_key1 (st : St) (key : List Nat) : St :=
  { st with key1 := some key }

/-- The buffer `key2` receives a key. -/
def St.write_key2 (st : St) (key : List Nat) : St :=
  { st with key2 := some key }

/-- A successful `polyseed_create` or `polyseed_decode` hands out a seed object. -/
def St.obtain (st : St) (seed : SeedVar) : St :=
  { st with live := st.live ++ [seed] }

/-- The call `polyseed_free(seed)` releases the seed object. -/
def St.free (st : St) (seed : SeedVar) (data : Seed) : St :=
  { st with events := st.events ++ [.polyseed_free seed data], live := st.live.erase seed }

/-- The loop `for (i = 0; i < sizeof(key); ++i) printf("%02x", key[i] & 0xff)`. -/
def St.print_key (st : St) (key : List Nat) : St :=
  { st with events := st.events ++
      (List.range 32).map (fun i => Event.printf "%02x" [.int ((key.getD i 0 &&& 0xff : Nat) : Int)]) }

/-- The function `polyseed_init` (lines 65-77). -/
def polyseed_init (st : St) : St :=
  let pd : polyseed_dependency := {
    randbytes := some .randombytes_buf,
    pbkdf2_sha256 := some .crypto_pbkdf2_sha256,
    memzero := some .sodium_memzero,
    u8_nfc := some .utf8_nfc,
    u8_nfkd := some .utf8_nfkd,
    time := none,
    alloc := none,
    free := none }
  st.call (.polyseed_inject pd)

/-- The function `main` of the C demo (lines 96-175). -/
def main (lib : Lib) (argc : Int) : Run :=
  let st : St := { events := [], live := [], key1 := none, key2 := none }
  let st := st.call .sodium_init
  if lib.sodium_init = -1 then
    let st := st.call (.printf "sodium_init failed\n" [])
    ⟨st, .returned 1⟩
  else
  let st := polyseed_init st
  let st := st.call (.polyseed_enable_features (FEATURE_FOO ||| FEATURE_BAR))
  let password := password123
  -- create a new seed
  let st := st.call (.printf "Generating new seed...\n" [])
  let features := if argc > 1 then FEATURE_FOO else 0
  let st := st.call (.polyseed_create features)
  match lib.polyseed_create (FEATURE_FOO ||| FEATURE_BAR) features with
  | .error result =>
    let st := st.call (.printf "ERROR: %i\n" [.int result])
    ⟨st, .returned 1⟩
  | .ok seed1 =>
  let st := st.obtain .seed1
  -- generate a key from the seed
  let st := st.call (.polyseed_keygen .seed1 seed1 lib.POLYSEED_MONERO 32)
  let key1 := lib.polyseed_keygen seed1 lib.POLYSEED_MONERO 32
  let st := st.write_key1 key1
  let st := st.call (.printf "Private key: " [])
  let st := st.print_key key1
  let st := st.call (.printf "\n" [])
  -- protect the seed with a password
  let st := st.call (.printf "Encrypting with password '%s' ...\n" [.str password])
  let st := st.call (.polyseed_crypt .seed1 seed1 password)
  let seed1 := lib.polyseed_crypt seed1 password
  -- encode into a mnemonic phrase
  match get_lang_by_name lib.langs English with
  | none =>
    let st := st.call (.polyseed_encode .seed1 seed1 none lib.POLYSEED_MONERO)
    ⟨st, .undefined⟩
  | some lang =>
  let st := st.call (.polyseed_encode .seed1 seed1 (some lang) lib.POLYSEED_MONERO)
  let phrase := lib.polyseed_encode seed1 lang lib.POLYSEED_MONERO
  let st := st.call (.printf "Mnemonic: %s\n" [.str phrase])
  let st := st.free .seed1 seed1
  let st := st.call (.printf "-------------------------------------------------\n" [])
  -- decode a seed from the phrase
  let st := st.call (.printf "Decoding mnemonic phrase...\n" [])
  let st := st.call (.polyseed_decode phrase lib.POLYSEED_MONERO)
  match lib.polyseed_decode phrase lib.POLYSEED_MONERO with
  | .error result =>
    let st := st.call (.printf "ERROR: %i\n" [.int result])
    ⟨st, .returned 1⟩
  | .ok (lang, seed2) =>
  let st := st.obtain .seed2
  let st := st.call (.polyseed_get_lang_name_en lang)
  let st := st.call (.printf "Detected language: %s\n" [.str (polyseed_get_lang_name_en lang)])
  let st := st.call (.polyseed_is_encrypted .seed2 seed2)
  let st := st.call (.printf "Encrypted: %s\n" [.lit (if is_encrypted seed2 then "true" else "false")])
  let st := st.call (.polyseed_get_feature .seed2 seed2 FEATURE_FOO)
  let st := if has_feature seed2 FEATURE_FOO then
      st.call (.printf "Seed has the 'Foo' feature\n" [])
    else st
  -- decrypt
  let st := st.call (.polyseed_is_encrypted .seed2 seed2)
  let (st, seed2) := if is_encrypted seed2 then
      let st := st.call (.printf "Decrypting with password '%s' ...\n" [.str password])
      let st := st.call (.polyseed_crypt .seed2 seed2 password)
      (st, lib.polyseed_crypt seed2 password)
    else (st, seed2)
  -- recover the key
  let st := st.call (.polyseed_keygen .seed2 seed2 lib.POLYSEED_MONERO 32)
  let key2 := lib.polyseed_keygen seed2 lib.POLYSEED_MONERO 32
  let st := st.write_key2 key2
  let st := st.call (.printf "Private key: " [])
  let st := st.print_key key2
  let st := st.call (.printf "\n" [])
  let st := st.free .seed2 seed2
  ⟨st, .returned 0⟩

end Main1

/-! `src/cpp/main2.cpp` -/

namespace Main2
open Polyseed

/-- The constant `FEATURE_FOO` (line 34). -/
def FEATURE_FOO : Nat := 1

/-- The constant `FEATURE_BAR` (line 35). -/
def FEATURE_BAR : Nat := 2

/-- The constant `FEATURE_QUX` (line 36). -/
def FEATURE_QUX : Nat := 2

/-- What a call into `polyseed.hpp` may throw: a `polyseed::error` with its
message, or an exception of another type. -/
inductive Thrown
  | error (what : String)
  | other
deriving DecidableEq, Repr

/-- What `main` calls from `polyseed.hpp`; the header is not part of the
sources, its functions are parameters of the embedding. A member function of
`polyseed::data` takes the seed held by the object and the coin given to the
constructor, and returns what it leaves in the object or in its output
argument, unless it throws. -/
structure Hpp where
  /-- The constant `POLYSEED_MONERO`. -/
  POLYSEED_MONERO : Nat
  /-- The call `data::create(features)` under the mask given to `polyseed::enable_features`. -/
  create : (enabled : Nat) → (coin : Nat) → (features : Nat) → Except Thrown Seed
  /-- The call `data::keygen(ptr, key_size)`: content of the key buffer afterwards. -/
  keygen : Seed → (coin : Nat) → (key_size : Nat) → Except Thrown (List Nat)
  /-- The call `data::crypt(password)`: the seed afterwards. -/
  crypt : Seed → (coin : Nat) → (password : CStr) → Except Thrown Seed
  /-- The call `polyseed::get_lang_by_name(name)`. -/
  get_lang_by_name : (name : CStr) → Except Thrown Language
  /-- The call `data::encode(lang, str)`: content of `str` afterwards. -/
  encode : Seed → (coin : Nat) → Language → Except Thrown CStr
  /-- The call `data::decode(phrase)`: the detected language and the decoded seed. -/
  decode : (coin : Nat) → (phrase : CStr) → Except Thrown (Language × Seed)

/-- The two `polyseed::data` objects of `main`. -/
inductive SeedVar
  | seed1
  | seed2
deriving DecidableEq, Repr

/-- An operand of `std::cout <<`. -/
inductive Out
  | lit (s : String)
  | str (s : CStr)
  | hex (v : Int)
  | endl
deriving DecidableEq

/-- A call made by `main`, with the values passed; a `polyseed::data` object is
given with the seed it holds at the time of the call. -/
inductive Event
  | enable_features (mask : Nat)
  | construct (seed : SeedVar) (coin : Nat)
  | create (seed : SeedVar) (features : Nat)
  | keygen (seed : SeedVar) (data : Seed) (key_size : Nat)
  | crypt (seed : SeedVar) (data : Seed) (password : CStr)
  | get_lang_by_name (name : CStr)
  | encode (seed : SeedVar) (data : Seed) (lang : Language)
  | decode (seed : SeedVar) (phrase : CStr)
  | encrypted (seed : SeedVar) (data : Seed)
  | has_feature (seed : SeedVar) (data : Seed) (feature : Nat)
  | destruct (seed : SeedVar)
  | cout (o : Out)
deriving DecidableEq

/-- How a run of `main` ends: `return` with a status, or an exception that
leaves `main`. -/
inductive Outcome
  | returned (status : Int)
  | uncaught (e : Thrown)
deriving DecidableEq, Repr

/-- The state of a run of `main`: the calls made so far in order and the
content of the buffers `key1` and `key2` once written. -/
structure St where
  events : List Event
  key1 : Option (List Nat)
  key2 : Option (List Nat)
deriving DecidableEq

/-- A finished run of `main`. -/
structure Run extends St where
  outcome : Outcome
deriving DecidableEq

/-- A call or an output operation. -/
def St.call (st : St) (e : Event) : St :=
  { st with events := st.events ++ [e] }

/-- The statement `std::cout << a << b << ...`. -/
def St.cout (st : St) (os : List Out) : St :=
  { st with events := st.events ++ os.map Event.cout }

/-- Whether an event is console output. -/
def Event.is_cout : Event → Bool
  | .cout _ => true
  | _ => false

/-- The calls of a run in order: its events without the console output. -/
def St.calls (st : St) : List Event :=
  st.events.filter (fun e => !e.is_cout)

/-- The buffer `key1` receives a key. -/
def St.write_key1 (st : St) (key : List Nat) : St :=
  { st with key1 := some key }

/-- The buffer `key2` receives a key. -/
def St.write_key2 (st : St) (key : List Nat) : St :=
  { st with key2 := some key }

/-- The loop that prints the 32 bytes of a key in hexadecimal. -/
def St.print_key (st : St) (key : List Nat) : St :=
  { st with events := st.events ++
      (List.range 32).map (fun i => Event.cout (.hex ((key.getD i 0 : Nat) : Int))) }

/-- The function `main` of the C++ demo (lines 38-114). -/
def main (hpp : Hpp) (argc : Int) : Run :=
  let st : St := { events := [], key1 := none, key2 := none }
  let password := password123
  let coin := hpp.POLYSEED_MONERO
  let st := st.call (.enable_features (FEATURE_FOO ||| FEATURE_BAR))
  -- first block: create a new seed
  let st := st.cout [.lit "Generating new seed...", .endl]
  let st := st.call (.construct .seed1 coin)
  let features := if argc > 1 then FEATURE_FOO else 0
  let st := st.call (.create .seed1 features)
  match hpp.create (FEATURE_FOO ||| FEATURE_BAR) coin features with
  | .error e => ⟨st, .uncaught e⟩
  | .ok seed1 =>
  -- generate a key from the seed
  let st := st.call (.keygen .seed1 seed1 32)
  match hpp.keygen seed1 coin 32 with
  | .error e => ⟨st, .uncaught e⟩
  | .ok key1 =>
  let st := st.write_key1 key1
  let st := st.cout [.lit "Private key: "]
  let st := st.print_key key1
  let st := st.cout [.endl]
  -- protect the seed with a password
  let st := st.cout [.lit "Encrypting with password '", .str password, .lit "' ...", .endl]
  let st := st.call (.crypt .seed1 seed1 password)
  match hpp.crypt seed1 coin password with
  | .error e => ⟨st, .uncaught e⟩
  | .ok seed1 =>
  -- encode into a mnemonic phrase
  let st := st.call (.get_lang_by_name English)
  match hpp.get_lang_by_name English with
  | .error (.error what) =>
    let st := st.cout [.lit what, .endl]
    let st := st.call (.destruct .seed1)
    ⟨st, .returned 1⟩
  | .error .other => ⟨st, .uncaught .other⟩
  | .ok lang =>
  let st := st.call (.encode .seed1 seed1 lang)
  match hpp.encode seed1 coin lang with
  | .error (.error what) =>
    let st := st.cout [.lit what, .endl]
    let st := st.call (.destruct .seed1)
    ⟨st, .returned 1⟩
  | .error .other => ⟨st, .uncaught .other⟩
  | .ok phrase =>
  let st := st.cout [.lit "Mnemonic: ", .str phrase, .endl]
  let st := st.call (.destruct .seed1)
  let st := st.cout [.lit "-------------------------------------------------", .endl]
  -- second block: decode a seed from the phrase
  let st := st.call (.construct .seed2 coin)
  let st := st.cout [.lit "Decoding mnemonic phrase...", .endl]
  let st := st.call (.decode .seed2 phrase)
  match hpp.decode coin phrase with
  | .error (.error what) =>
    let st := st.cout [.lit what, .endl]
    let st := st.call (.destruct .seed2)
    ⟨st, .returned 1⟩
  | .error .other => ⟨st, .uncaught .other⟩
  | .ok (lang, seed2) =>
  let st := st.cout [.lit "Detected language: ", .str lang.name_en, .endl]
  let st := st.cout [.lit "Encrypted: "]
  let st := st.call (.encrypted .seed2 seed2)
  let st := st.cout [.lit (if is_encrypted seed2 then "true" else "false"), .endl]
  let st := st.call (.has_feature .seed2 seed2 FEATURE_FOO)
  let st := if has_feature seed2 FEATURE_FOO then
      st.cout [.lit "Seed has the 'Foo' feature", .endl]
    else st
  -- decrypt
  let st := st.call (.encrypted .seed2 seed2)
  let (st, decrypted) : St × Except Thrown Seed := if is_encrypted seed2 then
      let st := st.cout [.lit "Decrypting with password '", .str password, .lit "' ...", .endl]
      let st := st.call (.crypt .seed2 seed2 password)
      (st, hpp.crypt seed2 coin password)
    else (st, .ok seed2)
  match decrypted with
  | .error e => ⟨st, .uncaught e⟩
  | .ok seed2 =>
  -- recover the key
  let st := st.call (.keygen .seed2 seed2 32)
  match hpp.keygen seed2 coin 32 with
  | .error e => ⟨st, .uncaught e⟩
  | .ok key2 =>
  let st := st.write_key2 key2
  let st := st.cout [.lit "Private key: "]
  let st := st.print_key key2
  let st := st.cout [.endl]
  let st := st.call (.destruct .seed2)
  ⟨st, .returned 0⟩

end Main2

/-! The cipher and the mnemonic codec of the specification -/

namespace Polyseed

/-- Modelled from the spec: what sections 3, 4.2, 4.3 and 6 leave to the
implementation or to external collaborators, none of it part of the sources:
the sizes of the fields of a phrase, the key-stretching primitive with the
constant salt and iteration count of the cipher, the checksum function and the
two normalisation forms. -/
structure Params where
  /-- Length of `secret` in bytes. -/
  secret_size : Nat
  /-- Width of the quantized timestamp in bits. -/
  timestamp_bits : Nat
  /-- Width of the feature bitset in bits. -/
  feature_bits : Nat
  /-- Width of the checksum in bits. -/
  checksum_bits : Nat
  /-- Bits encoded by one word: a word list has `2 ^ word_bits` words. -/
  word_bits : Nat
  /-- Number N of words in a phrase. -/
  num_words : Nat
  /-- Key-stretching primitive `derive(password, salt, iterations, output_length)`. -/
  stretch : List Nat → List Nat → Nat → Nat → List Nat
  /-- The constant domain-separation tag of the cipher. -/
  cipher_salt : List Nat
  /-- The iteration count of the cipher. -/
  cipher_iterations : Nat
  /-- The checksum over the packed bit string. -/
  checksum : List Bool → List Bool
  /-- Normalisation `normalize_nfc`. -/
  normalize_nfc : String → String
  /-- Normalisation `normalize_nfkd`. -/
  normalize_nfkd : String → String

/-- Modelled from the spec: the reversible bitwise combination of section 4.3,
taken as XOR of each secret byte with the keystream byte at the same position
(a position past the end of the keystream is left as it is). -/
def combine : List Nat → List Nat → List Nat
  | [], _ => []
  | b :: bs, [] => b :: combine bs []
  | b :: bs, k :: ks => (b ^^^ k) :: combine bs ks

/-- Modelled from the spec: the Entropy Cipher `apply(secret, password)` of
section 4.3: a keystream of the length of the secret is derived from the
password with the key-stretching primitive under the constant tag, and
combined with the secret. -/
def Params.apply (p : Params) (secret : List Nat) (password : CStr) : List Nat :=
  let keystream := p.stretch password.bytes p.cipher_salt p.cipher_iterations secret.length
  combine secret keystream

/-- Modelled from the spec: `toggle_encryption(password)` of section 4.1
(`polyseed_crypt`, `data::crypt`): applies the Entropy Cipher to `secret` and
flips `encrypted`. -/
def toggle_encryption (p : Params) (seed : Seed) (password : CStr) : Seed :=
  { seed with secret := p.apply seed.secret password, encrypted := !seed.encrypted }

/-- The `w` low bits of `n`, most significant first. -/
def toBits : (w : Nat) → (n : Nat) → List Bool
  | 0, _ => []
  | w + 1, n => toBits w (n / 2) ++ [n % 2 == 1]

/-- The number written by a bit string, most significant bit first. -/
def fromBits (bits : List Bool) : Nat :=
  bits.foldl (fun acc b => 2 * acc + (if b then 1 else 0)) 0

/-- Length L of the packed bit string of step 1 of `encode`. -/
def Params.packed_bits (p : Params) : Nat :=
  8 * p.secret_size + p.timestamp_bits + p.feature_bits + 1

/-- Modelled from the spec: step 1 of `encode` (section 4.2):
`secret || quantized_timestamp || features || encrypted_flag` as a bit string. -/
def pack (p : Params) (seed : Seed) : List Bool :=
  seed.secret.flatMap (toBits 8) ++ toBits p.timestamp_bits seed.timestamp
    ++ toBits p.feature_bits seed.features ++ [seed.encrypted]

/-- Modelled from the spec: the inverse of `pack`, step 3 of `decode`. -/
def unpack (p : Params) (bits : List Bool) : Seed :=
  let secretBits := bits.take (8 * p.secret_size)
  let rest := bits.drop (8 * p.secret_size)
  { secret := (List.range p.secret_size).map (fun i => fromBits ((secretBits.drop (8 * i)).take 8)),
    timestamp := fromBits (rest.take p.timestamp_bits),
    features := fromBits ((rest.drop p.timestamp_bits).take p.feature_bits),
    encrypted := ((rest.drop (p.timestamp_bits + p.feature_bits)).headD false) }

/-- The `n` consecutive groups of width `w` of a bit string. -/
def groups (w n : Nat) (bits : List Bool) : List (List Bool) :=
  (List.range n).map (fun i => (bits.drop (w * i)).take w)

/-- Modelled from the spec: `encode(seed, language)` of section 4.2: pack,
append the checksum, slice into N groups, map each group to the word at that
index of the word list. -/
def encode (p : Params) (seed : Seed) (language : Language) : List String :=
  let bits := pack p seed
  let all := bits ++ p.checksum bits
  (groups p.word_bits p.num_words all).map (fun g => language.wordlist.getD (fromBits g) "")

/-- Modelled from the spec: normalisation of a word under the mode of a language. -/
def Params.normalize (p : Params) (mode : NormalizationMode) (word : String) : String :=
  match mode with
  | .composed => p.normalize_nfc word
  | .decomposed => p.normalize_nfkd word

/-- Index of a word in a word list. -/
def index_of (word : String) : List String → Option Nat
  | [] => none
  | w :: ws => if w = word then some 0 else (index_of word ws).map (· + 1)

/-- Modelled from the spec: step 1 of `decode`: the index of every word of the
phrase, normalised under the mode of the language, in the word list of the
language; `none` when some word is not in the list. -/
def indices (p : Params) (language : Language) (phrase : List String) : Option (List Nat) :=
  phrase.mapM (fun word => index_of (p.normalize language.normalization_mode word) language.wordlist)

/-- Modelled from the spec: step 2 of `decode` for one language: the seed
unpacked from the reconstructed bit string when every word matches and the
checksum verifies. -/
def reconstruct (p : Params) (language : Language) (phrase : List String) : Option Seed :=
  match indices p language phrase with
  | none => none
  | some idx =>
    let all := idx.flatMap (toBits p.word_bits)
    let bits := all.take p.packed_bits
    if p.checksum bits = all.drop p.packed_bits then some (unpack p bits) else none

/-- Modelled from the spec: the decode failures of section 7. -/
inductive DecodeError
  | ChecksumError
  | LengthError
  | UnknownWordError
  | AmbiguousLanguageError
deriving DecidableEq, Repr

/-- Modelled from the spec: `decode(phrase)` of section 4.2 over a registry
(`polyseed_decode`, `data::decode`). -/
def decode (p : Params) (registry : List Language) (phrase : List String) :
    Except DecodeError (Seed × Language) :=
  if phrase.length ≠ p.num_words then
    .error .LengthError
  else if phrase.any (fun word =>
      registry.all (fun l => (index_of (p.normalize l.normalization_mode word) l.wordlist).isNone)) then
    .error .UnknownWordError
  else
    match registry.filterMap (fun l => (reconstruct p l phrase).map (fun seed => (seed, l))) with
    | [] => .error .ChecksumError
    | [found] => .ok found
    | _ => .error .AmbiguousLanguageError

end Polyseed

namespace Polyseed

/-- The invariants of a Seed (section 3): `secret` has the fixed size and holds
bytes, timestamp and features fit their fields. -/
def Seed.valid (p : Params) (seed : Seed) : Prop :=
  seed.secret.length = p.secret_size ∧ (∀ b ∈ seed.secret, b < 256) ∧
    seed.timestamp < 2 ^ p.timestamp_bits ∧ seed.features < 2 ^ p.feature_bits

/-- The invariants of a Language (section 3): a word list of unique words, of
power-of-two size, in the normalisation form of the language. -/
def Language.wf (p : Params) (language : Language) : Prop :=
  language.wordlist.length = 2 ^ p.word_bits ∧ language.wordlist.Nodup ∧
    ∀ word ∈ language.wordlist, p.normalize language.normalization_mode word = word

/-- The invariants of the phrase layout (sections 3 and 4.2): packed bit
string and checksum fill the N words exactly, and the checksum has its fixed
width. -/
def Params.wf (p : Params) : Prop :=
  p.packed_bits + p.checksum_bits = p.word_bits * p.num_words ∧
    ∀ bits : List Bool, bits.length = p.packed_bits → (p.checksum bits).length = p.checksum_bits

end Polyseed

/-! The contracts of the library that the demos rely on -/

namespace Main1
open Polyseed

/-- Modelled from the spec: `create` "sets `encrypted = false`" (section 4.1). -/
def CreateUnencrypted (lib : Lib) : Prop :=
  ∀ enabled features seed, lib.polyseed_create enabled features = .ok seed → seed.encrypted = false

/-- Modelled from the spec: `create` "stores `features`" (section 4.1), for a
request inside the enabled mask (section 6). -/
def CreateStoresFeatures (lib : Lib) : Prop :=
  ∀ enabled features seed, lib.polyseed_create enabled features = .ok seed →
    features &&& enabled = features → seed.features = features

/-- Modelled from the spec: `toggle_encryption` "flips `encrypted`" (section 4.1). -/
def CryptFlipsFlag (lib : Lib) : Prop :=
  ∀ seed password, (lib.polyseed_crypt seed password).encrypted = !seed.encrypted

/-- Modelled from the spec: the cipher acts on `secret` only (section 4.3), the
features are left alone. -/
def CryptKeepsFeatures (lib : Lib) : Prop :=
  ∀ seed password, (lib.polyseed_crypt seed password).features = seed.features

/-- Modelled from the spec: the invariants of a Seed (section 3) hold of a
seed that `create` hands out. -/
def CreateValid (lib : Lib) (p : Params) : Prop :=
  ∀ enabled features seed, lib.polyseed_create enabled features = .ok seed → seed.valid p

/-- Modelled from the spec: the invariants of a Seed (section 3) are kept by
`toggle_encryption`, which "must not change `secret`'s length" (section 4.3). -/
def CryptKeepsValid (lib : Lib) (p : Params) : Prop :=
  ∀ seed password, seed.valid p → (lib.polyseed_crypt seed password).valid p

/-- Modelled from the spec: decode undoes encode (section 8, round trip, "for
all valid feature bitsets"): a successful decode of the phrase of a valid seed
in a registered language gives that seed back. -/
def DecodeUndoesEncode (lib : Lib) (p : Params) : Prop :=
  ∀ seed lang coin lang' seed', seed.valid p → lang ∈ lib.langs →
    lib.polyseed_decode (lib.polyseed_encode seed lang coin) coin = .ok (lang', seed') → seed' = seed

end Main1

namespace Main2
open Polyseed

/-- Modelled from the spec: `create` "sets `encrypted = false`" (section 4.1). -/
def CreateUnencrypted (hpp : Hpp) : Prop :=
  ∀ enabled coin features seed, hpp.create enabled coin features = .ok seed → seed.encrypted = false

/-- Modelled from the spec: `create` "stores `features`" (section 4.1), for a
request inside the enabled mask (section 6). -/
def CreateStoresFeatures (hpp : Hpp) : Prop :=
  ∀ enabled coin features seed, hpp.create enabled coin features = .ok seed →
    features &&& enabled = features → seed.features = features

/-- Modelled from the spec: `toggle_encryption` "flips `encrypted`" (section 4.1). -/
def CryptFlipsFlag (hpp : Hpp) : Prop :=
  ∀ seed coin password seed', hpp.crypt seed coin password = .ok seed' →
    seed'.encrypted = !seed.encrypted

/-- Modelled from the spec: the cipher acts on `secret` only (section 4.3), the
features are left alone. -/
def CryptKeepsFeatures (hpp : Hpp) : Prop :=
  ∀ seed coin password seed', hpp.crypt seed coin password = .ok seed' →
    seed'.features = seed.features

/-- Modelled from the spec: the invariants of a Seed (section 3) hold of a
seed that `create` hands out. -/
def CreateValid (hpp : Hpp) (p : Params) : Prop :=
  ∀ enabled coin features seed, hpp.create enabled coin features = .ok seed → seed.valid p

/-- Modelled from the spec: the invariants of a Seed (section 3) are kept by
`toggle_encryption`, which "must not change `secret`'s length" (section 4.3). -/
def CryptKeepsValid (hpp : Hpp) (p : Params) : Prop :=
  ∀ seed coin password seed', seed.valid p → hpp.crypt seed coin password = .ok seed' →
    seed'.valid p

/-- Modelled from the spec: decode undoes encode (section 8, round trip, "for
all valid feature bitsets"): a successful decode of the phrase of a valid seed
gives that seed back. -/
def DecodeUndoesEncode (hpp : Hpp) (p : Params) : Prop :=
  ∀ seed coin lang phrase lang' seed', seed.valid p → hpp.encode seed coin lang = .ok phrase →
    hpp.decode coin phrase = .ok (lang', seed') → seed' = seed

end Main2

/-! Small instances, for evaluating the embedding -/

instance instDecidableEqExcept {ε α : Type} [DecidableEq ε] [DecidableEq α] :
    DecidableEq (Except ε α)
  | .ok a, .ok b => if h : a = b then isTrue (by rw [h]) else isFalse (fun e => h (by cases e; rfl))
  | .error a, .error b =>
    if h : a = b then isTrue (by rw [h]) else isFalse (fun e => h (by cases e; rfl))
  | .ok _, .error _ => isFalse (fun e => by cases e)
  | .error _, .ok _ => isFalse (fun e => by cases e)

namespace Polyseed

/-- A small layout: a one-byte secret, one bit each of timestamp, features
and checksum (the parity of the packed bits), six words of two bits. The
keystream repeats the bytes of the password. -/
def smallParams : Params where
  secret_size := 1
  timestamp_bits := 1
  feature_bits := 1
  checksum_bits := 1
  word_bits := 2
  num_words := 6
  stretch := fun password _ _ n => (List.range n).map (fun i => password.getD i 0 % 256)
  cipher_salt := []
  cipher_iterations := 1
  checksum := fun bits => [bits.foldl xor false]
  normalize_nfc := fun s => s
  normalize_nfkd := fun s => s

/-- A language named "English" with four words. -/
def langA : Language := ⟨English, English, ["a", "b", "c", "d"], .composed⟩

/-- A second language with the word list of `langA`. -/
def langB : Language := ⟨password123, password123, ["a", "b", "c", "d"], .composed⟩

/-- A language with four other words. -/
def langC : Language := ⟨password123, password123, ["e", "f", "g", "h"], .decomposed⟩

/-- A seed of the small layout. -/
def smallSeed : Seed := ⟨[201], 1, 0, true⟩

end Polyseed

namespace Main1
open Polyseed

/-- A phrase for a seed: its fields, each raised by one, as bytes. -/
def phraseOf (seed : Seed) : CStr :=
  ⟨seed.secret.map (· + 1) ++ [seed.timestamp + 1, seed.features + 1, if seed.encrypted then 2 else 1],
    by
      intro b hb
      simp only [List.mem_append, List.mem_map, List.mem_cons, List.mem_singleton,
        List.not_mem_nil, or_false] at hb
      rcases hb with ⟨a, _, rfl⟩ | rfl | rfl | rfl
      · omega
      · omega
      · omega
      · split <;> decide⟩

/-- The seed read back from a phrase of `phraseOf`. -/
def seedOf (phrase : CStr) : Except polyseed_status (Language × Seed) :=
  match phrase.bytes.reverse with
  | e :: f :: t :: rs => .ok (langA, ⟨rs.reverse.map (· - 1), t - 1, f - 1, e == 2⟩)
  | _ => .error 3

/-- A library instance: seeds are created with the secret 201 for a request
that fits the one feature bit of `smallParams`, the cipher is that of
`smallParams`, a key repeats the first byte of the secret. -/
def demoLib : Lib where
  sodium_init := 0
  langs := [langA]
  POLYSEED_MONERO := 0
  polyseed_create := fun _ features =>
    if features < 2 then .ok ⟨[201], 1, features, false⟩ else .error 4
  polyseed_keygen := fun seed _ key_size => List.replicate key_size (seed.secret.headD 0)
  polyseed_crypt := fun seed password => toggle_encryption smallParams seed password
  polyseed_encode := fun seed _ _ => phraseOf seed
  polyseed_decode := fun phrase _ => seedOf phrase

/-- The library instance `demoLib` with a registry that has no language named "English". -/
def noEnglishLib : Lib := { demoLib with langs := [langC] }

end Main1

namespace Main2
open Polyseed

/-- A library instance for the C++ demo, over the one of the C demo; no call throws. -/
def demoHpp : Hpp where
  POLYSEED_MONERO := 0
  create := fun _ _ features =>
    if features < 2 then .ok ⟨[201], 1, features, false⟩ else .error (.error "unsupported feature")
  keygen := fun seed _ key_size => .ok (List.replicate key_size (seed.secret.headD 0))
  crypt := fun seed _ password => .ok (toggle_encryption smallParams seed password)
  get_lang_by_name := fun name => if name = English then .ok langA else .error (.error "unknown language")
  encode := fun seed _ _ => .ok (Main1.phraseOf seed)
  decode := fun _ phrase => match Main1.seedOf phrase with
    | .ok r => .ok r
    | .error _ => .error (.error "invalid phrase")

end Main2

/-! Lemmas: C strings, language lookup, normalisation callbacks -/

namespace Main1
open Polyseed

theorem strcmpBytes_eq_zero (a b : List Nat) (ha : ∀ x ∈ a, x ≠ 0) (hb : ∀ x ∈ b, x ≠ 0) :
    strcmpBytes a b = 0 ↔ a = b := by
  induction a generalizing b with
  | nil =>
    cases b with
    | nil => simp [strcmpBytes]
    | cons y ys =>
      have := hb y (by simp)
      simp [strcmpBytes]; omega
  | cons x xs ih =>
    cases b with
    | nil =>
      have := ha x (by simp)
      simp [strcmpBytes]; omega
    | cons y ys =>
      simp only [strcmpBytes]
      by_cases hxy : x = y
      · subst hxy
        simp only [if_true]
        rw [ih ys (fun z hz => ha z (by simp [hz])) (fun z hz => hb z (by simp [hz]))]
        simp
      · simp [hxy]; omega

theorem strcmp_eq_zero (a b : CStr) : 0 = strcmp a b ↔ a = b := by
  unfold strcmp
  rw [eq_comm, strcmpBytes_eq_zero a.bytes b.bytes a.nonzero b.nonzero]
  constructor
  · intro h; cases a; cases b; simp_all
  · intro h; rw [h]

theorem loop_some (langs : List Language) (name : CStr) (todo i : Nat) (lang : Language) :
    get_lang_by_name.loop langs name todo i = some lang →
      ∃ k, ∃ h : k < langs.length, i ≤ k ∧ langs.get ⟨k, h⟩ = lang ∧
        (lang.name_en = name ∨ lang.name = name) ∧
        ∀ j, ∀ hj : j < langs.length, i ≤ j → j < k →
          ¬ ((langs.get ⟨j, hj⟩).name_en = name ∨ (langs.get ⟨j, hj⟩).name = name) := by
  induction todo generalizing i with
  | zero => simp [get_lang_by_name.loop]
  | succ t ih =>
    intro hres
    unfold get_lang_by_name.loop at hres
    by_cases h : i < polyseed_get_num_langs langs
    · simp only [h, dite_true] at hres
      by_cases h1 : 0 = strcmp name (polyseed_get_lang_name_en (polyseed_get_lang langs i h))
      · simp only [h1, if_true, Option.some.injEq] at hres
        refine ⟨i, h, le_refl _, hres, ?_, ?_⟩
        · left
          rw [← hres]
          exact ((strcmp_eq_zero _ _).1 h1).symm
        · intro j hj h1 h2; omega
      · simp only [h1, if_false] at hres
        by_cases h2 : 0 = strcmp name (polyseed_get_lang_name (polyseed_get_lang langs i h))
        · simp only [h2, if_true, Option.some.injEq] at hres
          refine ⟨i, h, le_refl _, hres, ?_, ?_⟩
          · right
            rw [← hres]
            exact ((strcmp_eq_zero _ _).1 h2).symm
          · intro j hj h1 h2; omega
        · simp only [h2, if_false] at hres
          obtain ⟨k, hk, hik, hget, hm, hmin⟩ := ih (i + 1) hres
          refine ⟨k, hk, by omega, hget, hm, ?_⟩
          intro j hj hij hjk
          by_cases hji : j = i
          · subst hji
            rintro (e | e)
            · exact h1 ((strcmp_eq_zero _ _).2 e.symm)
            · exact h2 ((strcmp_eq_zero _ _).2 e.symm)
          · exact hmin j hj (by omega) hjk
    · simp [h] at hres

theorem loop_none (langs : List Language) (name : CStr) (todo i : Nat)
    (hfuel : langs.length ≤ i + todo) :
    get_lang_by_name.loop langs name todo i = none →
      ∀ j, ∀ hj : j < langs.length, i ≤ j →
        ¬ ((langs.get ⟨j, hj⟩).name_en = name ∨ (langs.get ⟨j, hj⟩).name = name) := by
  induction todo generalizing i with
  | zero => intro _ j hj hij; omega
  | succ t ih =>
    intro hres
    unfold get_lang_by_name.loop at hres
    by_cases h : i < polyseed_get_num_langs langs
    · simp only [h, dite_true] at hres
      by_cases h1 : 0 = strcmp name (polyseed_get_lang_name_en (polyseed_get_lang langs i h))
      · simp [h1] at hres
      · simp only [h1, if_false] at hres
        by_cases h2 : 0 = strcmp name (polyseed_get_lang_name (polyseed_get_lang langs i h))
        · simp [h2] at hres
        · simp only [h2, if_false] at hres
          intro j hj hij
          by_cases hji : j = i
          · subst hji
            rintro (e | e)
            · exact h1 ((strcmp_eq_zero _ _).2 e.symm)
            · exact h2 ((strcmp_eq_zero _ _).2 e.symm)
          · exact ih (i + 1) (by omega) hres j hj (by omega)
    · intro j hj hij
      unfold polyseed_get_num_langs at h
      omega

end Main1

namespace Main1

theorem size_t_sub_one {n : Nat} (h0 : 0 < n) (h1 : n ≤ SIZE_MAX) : size_t_sub n 1 = n - 1 := by
  unfold size_t_sub SIZE_MAX at *
  omega

theorem MIN_eq_min (a b : Nat) : MIN a b = min a b := by
  unfold MIN; split <;> omega

theorem memcpy_length (dst : List Nat) (src : CStr) (n : Nat) :
    (memcpy dst src n).length = dst.length := by
  unfold memcpy
  induction n generalizing dst with
  | zero => simp
  | succ k ih => simp [List.range_succ, List.foldl_append, ih]

theorem memcpy_getElem? (dst : List Nat) (src : CStr) (n i : Nat) :
    (memcpy dst src n)[i]? = if i < n ∧ i < dst.length then some (src.at i) else dst[i]? := by
  unfold memcpy
  induction n with
  | zero => simp
  | succ k ih =>
    simp only [List.range_succ, List.foldl_append, List.foldl_cons, List.foldl_nil]
    rw [List.getElem?_set]
    have hl := memcpy_length dst src k
    unfold memcpy at hl
    by_cases hik : k = i
    · subst hik
      simp [hl]
      split <;> simp_all
    · simp [hik, ih]
      by_cases h1 : i < k
      · have : i < k + 1 := by omega
        simp [h1, this]
      · have : ¬ i < k + 1 := by omega
        simp [h1, this]

theorem copy_shape (norm : List Nat) (s : CStr) (n : Nat) (hn : n ≤ strlen s)
    (hb : n < norm.length) :
    (memcpy norm s n).set n 0 = s.bytes.take n ++ 0 :: norm.drop (n + 1) := by
  apply List.ext_getElem?
  intro i
  rw [List.getElem?_set, memcpy_length, memcpy_getElem?]
  unfold strlen at hn
  by_cases h1 : i < n
  · have h2 : n ≠ i := by omega
    have h3 : i < norm.length := by omega
    have h4 : i < (List.take n s.bytes).length := by simp; omega
    rw [List.getElem?_append_left h4]
    simp [h1, h2, h3, CStr.at]
    have : i < s.bytes.length := by omega
    simp [this]
  · have h4 : (List.take n s.bytes).length ≤ i := by simp; omega
    rw [List.getElem?_append_right h4]
    have hlen : (List.take n s.bytes).length = n := by simp; omega
    rw [hlen]
    by_cases h2 : n = i
    · subst h2; simp [hb]
    · simp [h1, h2]
      obtain ⟨k, hk⟩ : ∃ k, i - n = k + 1 := ⟨i - n - 1, by omega⟩
      rw [hk]
      simp
      congr 1
      omega

theorem cstring_of_copy (norm : List Nat) (s : CStr) (n : Nat) :
    cstring_of (s.bytes.take n ++ 0 :: norm.drop (n + 1)) = s.bytes.take n := by
  unfold cstring_of
  rw [List.takeWhile_append_of_pos]
  · simp
  · intro a ha
    have := s.nonzero a (List.mem_of_mem_take ha)
    simpa using this

theorem callback_result (norm : List Nat) (s : CStr) (STR_SIZE : Nat) (r : NormResult)
    (hpos : 0 < STR_SIZE) (hmax : STR_SIZE ≤ SIZE_MAX) (hbuf : norm.length = STR_SIZE)
    (hr : r = { size := MIN (strlen s) (size_t_sub STR_SIZE 1),
                norm := (memcpy norm s (MIN (strlen s) (size_t_sub STR_SIZE 1))).set
                  (MIN (strlen s) (size_t_sub STR_SIZE 1)) 0,
                scratch := List.replicate (strlen s) 0 }) :
    r.size = min (strlen s) (STR_SIZE - 1) ∧
    r.norm.take r.size = s.bytes.take r.size ∧
    r.norm[r.size]? = some 0 ∧
    r.norm.drop (r.size + 1) = norm.drop (r.size + 1) ∧
    r.norm.length = STR_SIZE ∧
    r.size + 1 ≤ STR_SIZE ∧
    r.size ≤ STR_SIZE - 1 ∧
    (cstring_of r.norm = s.bytes ↔ strlen s ≤ STR_SIZE - 1) := by
  have hsz : MIN (strlen s) (size_t_sub STR_SIZE 1) = min (strlen s) (STR_SIZE - 1) := by
    rw [size_t_sub_one hpos hmax, MIN_eq_min]
  rw [hsz] at hr
  subst hr
  have hn : min (strlen s) (STR_SIZE - 1) ≤ strlen s := Nat.min_le_left _ _
  have hb : min (strlen s) (STR_SIZE - 1) < norm.length := by
    have := Nat.min_le_right (strlen s) (STR_SIZE - 1); omega
  have hshape := copy_shape norm s _ hn hb
  have hlen : (List.take (min (strlen s) (STR_SIZE - 1)) s.bytes).length
      = min (strlen s) (STR_SIZE - 1) := by
    rw [List.length_take]; unfold strlen at *; omega
  refine ⟨rfl, ?_, ?_, ?_, ?_, ?_, ?_, ?_⟩
  · simp only [hshape]
    rw [List.take_append_of_le_length (by omega)]
    simp
  · simp only [hshape]
    rw [List.getElem?_append_right (by omega)]
    simp [hlen]
  · simp only [hshape]
    rw [List.drop_append_eq_append_drop, hlen, List.drop_eq_nil_of_le (by omega)]
    simp
  · simp [memcpy_length, hbuf]
  · simp only; omega
  · simp only; omega
  · simp only [hshape, cstring_of_copy]
    rw [List.take_eq_self_iff]
    unfold strlen at *
    omega

end Main1

/-! Lemmas: the cipher and the codec -/

namespace Polyseed

theorem toBits_length (w n : Nat) : (toBits w n).length = w := by
  induction w generalizing n with
  | zero => rfl
  | succ k ih => simp [toBits, ih]

theorem fromBits_append_one (l : List Bool) (b : Bool) :
    fromBits (l ++ [b]) = 2 * fromBits l + (if b then 1 else 0) := by
  simp [fromBits, List.foldl_append]

theorem fromBits_toBits (w n : Nat) (h : n < 2 ^ w) : fromBits (toBits w n) = n := by
  induction w generalizing n with
  | zero =>
    have : n = 0 := by simpa using h
    subst this; rfl
  | succ k ih =>
    have hk : n / 2 < 2 ^ k := by
      rw [Nat.div_lt_iff_lt_mul (by decide)]
      rw [pow_succ] at h; exact h
    rw [toBits, fromBits_append_one, ih _ hk]
    rcases Nat.mod_two_eq_zero_or_one n with h0 | h1
    · simp [h0]; omega
    · simp [h1]; omega

theorem toBits_fromBits (bits : List Bool) : toBits bits.length (fromBits bits) = bits := by
  induction bits using List.reverseRecOn with
  | nil => rfl
  | append_singleton l b ih =>
    rw [List.length_append, List.length_singleton, toBits, fromBits_append_one]
    cases b
    · have h1 : (2 * fromBits l + 0) / 2 = fromBits l := by omega
      have h2 : (2 * fromBits l + 0) % 2 = 0 := by omega
      simp [h1, h2, ih]
    · have h1 : (2 * fromBits l + 1) / 2 = fromBits l := by omega
      have h2 : (2 * fromBits l + 1) % 2 = 1 := by omega
      simp [h1, h2, ih]

theorem fromBits_lt (bits : List Bool) : fromBits bits < 2 ^ bits.length := by
  induction bits using List.reverseRecOn with
  | nil => simp [fromBits]
  | append_singleton l b ih =>
    rw [List.length_append, List.length_singleton, fromBits_append_one, pow_succ]
    cases b <;> simp <;> omega

theorem groups_flatten (w n : Nat) (bits : List Bool) :
    (groups w n bits).flatten = bits.take (w * n) := by
  induction n with
  | zero => simp [groups]
  | succ k ih =>
    unfold groups at *
    rw [List.range_succ, List.map_append, List.flatten_append, ih]
    simp only [List.map_cons, List.map_nil, List.flatten_cons, List.flatten_nil, List.append_nil]
    rw [Nat.mul_succ, List.take_add]

theorem groups_length (w n : Nat) (bits : List Bool) (h : w * n ≤ bits.length) :
    ∀ g ∈ groups w n bits, g.length = w := by
  intro g hg
  unfold groups at hg
  rw [List.mem_map] at hg
  obtain ⟨i, hi, rfl⟩ := hg
  rw [List.mem_range] at hi
  rw [List.length_take, List.length_drop]
  have : w * (i + 1) ≤ w * n := Nat.mul_le_mul_left w hi
  rw [Nat.mul_succ] at this
  omega

theorem flatMap_toBits_fromBits (w : Nat) (gs : List (List Bool)) (h : ∀ g ∈ gs, g.length = w) :
    (gs.map fromBits).flatMap (toBits w) = gs.flatten := by
  induction gs with
  | nil => rfl
  | cons g rest ih =>
    simp only [List.map_cons, List.flatMap_cons, List.flatten_cons]
    rw [ih (fun g' hg' => h g' (List.mem_cons_of_mem _ hg'))]
    have hg := h g (List.mem_cons_self _ _)
    rw [← hg, toBits_fromBits]

theorem index_of_getD (ws : List String) (i : Nat) (hi : i < ws.length) (hnd : ws.Nodup) :
    index_of (ws.getD i "") ws = some i := by
  induction ws generalizing i with
  | nil => simp at hi
  | cons w rest ih =>
    cases i with
    | zero => simp [index_of]
    | succ j =>
      have hj : j < rest.length := by simpa using hi
      have hnd' := List.nodup_cons.1 hnd
      have hmem : rest.getD j "" ∈ rest := by
        rw [List.getD_eq_getElem _ _ hj]; exact List.getElem_mem hj
      have hne : w ≠ rest.getD j "" := fun e => hnd'.1 (e ▸ hmem)
      simp only [index_of, List.getD_cons_succ, hne, if_false, ih j hj hnd'.2]
      rfl

end Polyseed

namespace Polyseed

theorem flatMap_toBits_length (w : Nat) (l : List Nat) : (l.flatMap (toBits w)).length = w * l.length := by
  induction l with
  | nil => simp
  | cons b t ih => simp [List.flatMap_cons, toBits_length, ih, Nat.mul_succ]; omega

theorem secret_chunks (l : List Nat) (h : ∀ b ∈ l, b < 256) :
    (List.range l.length).map (fun i => fromBits (((l.flatMap (toBits 8)).drop (8 * i)).take 8)) = l := by
  induction l with
  | nil => rfl
  | cons b t ih =>
    rw [List.length_cons, List.range_succ_eq_map, List.map_cons, List.map_map]
    have hb : b < 2 ^ 8 := h b (List.mem_cons_self _ _)
    congr 1
    · simp only [Nat.mul_zero, List.drop_zero, List.flatMap_cons]
      rw [List.take_append_of_le_length (by rw [toBits_length])]
      rw [List.take_of_length_le (by rw [toBits_length])]
      exact fromBits_toBits 8 b hb
    · have ih' := ih (fun x hx => h x (List.mem_cons_of_mem _ hx))
      conv_rhs => rw [← ih']
      apply List.map_congr_left
      intro i _
      simp only [Function.comp, List.flatMap_cons]
      have : 8 * (i + 1) = (toBits 8 b).length + 8 * i := by rw [toBits_length]; omega
      rw [this, List.drop_append]

theorem pack_length (p : Params) (seed : Seed) (h : seed.valid p) :
    (pack p seed).length = p.packed_bits := by
  unfold pack Params.packed_bits
  rw [List.length_append, List.length_append, List.length_append, flatMap_toBits_length,
    toBits_length, toBits_length, h.1]
  rfl

theorem unpack_pack (p : Params) (seed : Seed) (h : seed.valid p) :
    unpack p (pack p seed) = seed := by
  obtain ⟨hlen, hbytes, hts, hfeat⟩ := h
  have hS : (seed.secret.flatMap (toBits 8)).length = 8 * p.secret_size := by
    rw [flatMap_toBits_length, hlen]
  unfold unpack pack
  simp only [List.append_assoc]
  rw [List.take_append_of_le_length (by omega), List.take_of_length_le (by omega)]
  rw [List.drop_append_of_le_length (by omega), List.drop_of_length_le (by omega), List.nil_append]
  have e1 : (List.range p.secret_size).map
      (fun i => fromBits (((seed.secret.flatMap (toBits 8)).drop (8 * i)).take 8)) = seed.secret := by
    rw [← hlen]; exact secret_chunks _ hbytes
  have hT : (toBits p.timestamp_bits seed.timestamp).length = p.timestamp_bits := toBits_length _ _
  have hF : (toBits p.feature_bits seed.features).length = p.feature_bits := toBits_length _ _
  have e2 : List.take p.timestamp_bits (toBits p.timestamp_bits seed.timestamp ++
      (toBits p.feature_bits seed.features ++ [seed.encrypted])) = toBits p.timestamp_bits seed.timestamp := by
    rw [List.take_append_of_le_length (by omega), List.take_of_length_le (by omega)]
  have e3 : List.drop p.timestamp_bits (toBits p.timestamp_bits seed.timestamp ++
      (toBits p.feature_bits seed.features ++ [seed.encrypted])) =
      toBits p.feature_bits seed.features ++ [seed.encrypted] := by
    rw [List.drop_append_of_le_length (by omega), List.drop_of_length_le (by omega), List.nil_append]
  have e4 : List.take p.feature_bits (toBits p.feature_bits seed.features ++ [seed.encrypted]) =
      toBits p.feature_bits seed.features := by
    rw [List.take_append_of_le_length (by omega), List.take_of_length_le (by omega)]
  have e5 : List.drop (p.timestamp_bits + p.feature_bits) (toBits p.timestamp_bits seed.timestamp ++
      (toBits p.feature_bits seed.features ++ [seed.encrypted])) = [seed.encrypted] := by
    rw [← List.drop_drop, e3]
    rw [List.drop_append_of_le_length (by omega), List.drop_of_length_le (by omega), List.nil_append]
  rw [e1, e2, e3, e4, e5, fromBits_toBits _ _ hts, fromBits_toBits _ _ hfeat]
  rfl

end Polyseed

namespace Polyseed

theorem mapM_map_some {α β γ : Type} (f : β → Option γ) (g : α → β) (h : α → γ) (l : List α)
    (hl : ∀ x ∈ l, f (g x) = some (h x)) : (l.map g).mapM f = some (l.map h) := by
  induction l with
  | nil => rfl
  | cons a t ih =>
    rw [List.map_cons, List.mapM_cons, hl a (List.mem_cons_self _ _),
      ih (fun x hx => hl x (List.mem_cons_of_mem _ hx))]
    rfl

theorem filterMap_unique {α β : Type} (f : α → Option β) (l : List α) (a : α) (b : β)
    (hnd : l.Nodup) (ha : a ∈ l) (hfa : f a = some b) (hother : ∀ x ∈ l, x ≠ a → f x = none) :
    l.filterMap f = [b] := by
  induction l with
  | nil => simp at ha
  | cons x t ih =>
    have hnd' := List.nodup_cons.1 hnd
    by_cases hx : x = a
    · subst hx
      rw [List.filterMap_cons_some hfa]
      congr 1
      rw [List.filterMap_eq_nil_iff]
      intro y hy
      exact hother y (List.mem_cons_of_mem _ hy) (fun e => hnd'.1 (e ▸ hy))
    · rw [List.filterMap_cons_none (hother x (List.mem_cons_self _ _) hx)]
      have ha' : a ∈ t := by
        rcases List.mem_cons.1 ha with e | e
        · exact absurd e.symm hx
        · exact e
      exact ih hnd'.2 ha' (fun y hy => hother y (List.mem_cons_of_mem _ hy))

theorem all_length (p : Params) (seed : Seed) (hp : p.wf) (hs : seed.valid p) :
    (pack p seed ++ p.checksum (pack p seed)).length = p.word_bits * p.num_words := by
  rw [List.length_append, pack_length p seed hs, hp.2 _ (pack_length p seed hs), hp.1]

theorem word_index (p : Params) (seed : Seed) (l : Language) (hp : p.wf) (hs : seed.valid p)
    (hl : l.wf p) :
    ∀ g ∈ groups p.word_bits p.num_words (pack p seed ++ p.checksum (pack p seed)),
      index_of (p.normalize l.normalization_mode (l.wordlist.getD (fromBits g) "")) l.wordlist
        = some (fromBits g) := by
  intro g hg
  have hlen := groups_length p.word_bits p.num_words _ (le_of_eq (all_length p seed hp hs).symm) g hg
  have hlt : fromBits g < l.wordlist.length := by
    rw [hl.1, ← hlen]; exact fromBits_lt g
  have hmem : l.wordlist.getD (fromBits g) "" ∈ l.wordlist := by
    rw [List.getD_eq_getElem _ _ hlt]; exact List.getElem_mem hlt
  rw [hl.2.2 _ hmem]
  exact index_of_getD _ _ hlt hl.2.1

theorem indices_encode (p : Params) (seed : Seed) (l : Language) (hp : p.wf) (hs : seed.valid p)
    (hl : l.wf p) :
    indices p l (encode p seed l) =
      some ((groups p.word_bits p.num_words (pack p seed ++ p.checksum (pack p seed))).map fromBits) := by
  unfold indices encode
  exact mapM_map_some _ _ _ _ (word_index p seed l hp hs hl)

theorem reconstruct_encode (p : Params) (seed : Seed) (l : Language) (hp : p.wf) (hs : seed.valid p)
    (hl : l.wf p) : reconstruct p l (encode p seed l) = some seed := by
  have hall := all_length p seed hp hs
  unfold reconstruct
  rw [indices_encode p seed l hp hs hl]
  simp only
  rw [flatMap_toBits_fromBits _ _ (groups_length _ _ _ (le_of_eq hall.symm)), groups_flatten,
    List.take_of_length_le (le_of_eq hall)]
  have hpk := pack_length p seed hs
  rw [List.take_append_of_le_length (le_of_eq hpk.symm), List.take_of_length_le (le_of_eq hpk),
    List.drop_append_of_le_length (le_of_eq hpk.symm), List.drop_of_length_le (le_of_eq hpk),
    List.nil_append, if_pos rfl, unpack_pack p seed hs]

theorem encode_length (p : Params) (seed : Seed) (l : Language) :
    (encode p seed l).length = p.num_words := by
  simp [encode, groups]

theorem decode_encode_of_unique (p : Params) (registry : List Language) (seed : Seed) (l : Language)
    (hp : p.wf) (hs : seed.valid p) (hl : l.wf p) (hreg : l ∈ registry) (hnd : registry.Nodup)
    (hother : ∀ l' ∈ registry, l' ≠ l → reconstruct p l' (encode p seed l) = none) :
    decode p registry (encode p seed l) = .ok (seed, l) := by
  unfold decode
  rw [if_neg (by rw [encode_length]; simp)]
  have hknown : (encode p seed l).any (fun word => registry.all (fun l' =>
      (index_of (p.normalize l'.normalization_mode word) l'.wordlist).isNone)) = false := by
    rw [List.any_eq_false]
    intro word hword
    unfold encode at hword
    rw [List.mem_map] at hword
    obtain ⟨g, hg, rfl⟩ := hword
    intro hall
    rw [List.all_eq_true] at hall
    have := hall l hreg
    rw [word_index p seed l hp hs hl g hg] at this
    simp at this
  rw [hknown]
  have hfm : registry.filterMap (fun l' => (reconstruct p l' (encode p seed l)).map
      (fun seed' => (seed', l'))) = [(seed, l)] := by
    apply filterMap_unique _ _ l _ hnd hreg
    · rw [reconstruct_encode p seed l hp hs hl]; rfl
    · intro x hx hne
      rw [hother x hx hne]; rfl
  simp [hfm]

end Polyseed

namespace Polyseed

theorem combine_length (secret keystream : List Nat) :
    (combine secret keystream).length = secret.length := by
  induction secret generalizing keystream with
  | nil => rfl
  | cons b bs ih => cases keystream <;> simp [combine, ih]

theorem combine_combine (secret keystream : List Nat) :
    combine (combine secret keystream) keystream = secret := by
  induction secret generalizing keystream with
  | nil => rfl
  | cons b bs ih =>
    cases keystream with
    | nil => simp [combine, ih]
    | cons k ks => simp [combine, ih, Nat.xor_cancel_right]

theorem combine_lt (secret keystream : List Nat) (hs : ∀ b ∈ secret, b < 256)
    (hk : ∀ k ∈ keystream, k < 256) : ∀ b ∈ combine secret keystream, b < 256 := by
  induction secret generalizing keystream with
  | nil => intro b hb; simp [combine] at hb
  | cons x xs ih =>
    cases keystream with
    | nil =>
      intro b hb
      simp only [combine, List.mem_cons] at hb
      rcases hb with rfl | hb
      · exact hs _ (List.mem_cons_self _ _)
      · exact ih [] (fun y hy => hs y (List.mem_cons_of_mem _ hy)) (by simp) b hb
    | cons k ks =>
      intro b hb
      simp only [combine, List.mem_cons] at hb
      rcases hb with rfl | hb
      · exact Nat.xor_lt_two_pow (n := 8) (hs _ (List.mem_cons_self _ _))
          (hk _ (List.mem_cons_self _ _))
      · exact ih ks (fun y hy => hs y (List.mem_cons_of_mem _ hy))
          (fun y hy => hk y (List.mem_cons_of_mem _ hy)) b hb

theorem toggle_small_valid (seed : Seed) (password : CStr) (h : seed.valid smallParams) :
    (toggle_encryption smallParams seed password).valid smallParams := by
  obtain ⟨h1, h2, h3, h4⟩ := h
  refine ⟨?_, ?_, h3, h4⟩
  · simp only [toggle_encryption, Params.apply, combine_length]
    exact h1
  · apply combine_lt _ _ h2
    intro k hk
    simp only [smallParams, List.mem_map] at hk
    obtain ⟨i, _, rfl⟩ := hk
    exact Nat.mod_lt _ (by decide)

theorem decode_ok_unique (p : Params) (registry : List Language) (phrase : List String)
    (seed : Seed) (l : Language) (h : decode p registry phrase = .ok (seed, l)) :
    ∀ l' ∈ registry, l' ≠ l → reconstruct p l' phrase = none := by
  intro l' hl' hne
  unfold decode at h
  split_ifs at h
  split at h
  · cases h
  · rename_i found hfound
    cases h
    cases hrec : reconstruct p l' phrase with
    | none => rfl
    | some s' =>
      have hmem : (s', l') ∈ registry.filterMap
          (fun l => (reconstruct p l phrase).map (fun seed => (seed, l))) := by
        rw [List.mem_filterMap]
        exact ⟨l', hl', by rw [hrec]; rfl⟩
      rw [hfound] at hmem
      simp at hmem
      exact absurd hmem.2 hne
  · cases h

end Polyseed

namespace Polyseed

theorem mem_validating (p : Params) (registry : List Language) (seed : Seed) (l : Language)
    (hp : p.wf) (hs : seed.valid p) (hl : l.wf p) (hreg : l ∈ registry) :
    (seed, l) ∈ registry.filterMap (fun l' =>
      (reconstruct p l' (encode p seed l)).map (fun seed' => (seed', l'))) := by
  rw [List.mem_filterMap]
  exact ⟨l, hreg, by rw [reconstruct_encode p seed l hp hs hl]; rfl⟩

theorem encode_known (p : Params) (registry : List Language) (seed : Seed) (l : Language)
    (hp : p.wf) (hs : seed.valid p) (hl : l.wf p) (hreg : l ∈ registry) :
    (encode p seed l).any (fun word => registry.all (fun l' =>
      (index_of (p.normalize l'.normalization_mode word) l'.wordlist).isNone)) = false := by
  rw [List.any_eq_false]
  intro word hword
  unfold encode at hword
  rw [List.mem_map] at hword
  obtain ⟨g, hg, rfl⟩ := hword
  intro hall
  rw [List.all_eq_true] at hall
  have := hall l hreg
  rw [word_index p seed l hp hs hl g hg] at this
  simp at this

theorem smallParams_wf : smallParams.wf := by
  refine ⟨by decide, ?_⟩
  intro bits _
  rfl

theorem smallSeed_valid : smallSeed.valid smallParams := by
  unfold Seed.valid smallSeed smallParams
  decide

theorem langA_wf : langA.wf smallParams := by
  unfold Language.wf langA smallParams Params.normalize
  decide

theorem langB_wf : langB.wf smallParams := by
  unfold Language.wf langB smallParams Params.normalize
  decide

end Polyseed

/-! Lemmas: the two demos -/

namespace Main1
open Polyseed

@[simp]
theorem St.call_events (st : St) (e : Event) : (st.call e).events = st.events ++ [e] := rfl
@[simp]
theorem St.call_live (st : St) (e : Event) : (st.call e).live = st.live := rfl
@[simp]
theorem St.call_key1 (st : St) (e : Event) : (st.call e).key1 = st.key1 := rfl
@[simp]
theorem St.call_key2 (st : St) (e : Event) : (st.call e).key2 = st.key2 := rfl
@[simp]
theorem St.obtain_events (st : St) (v : SeedVar) : (st.obtain v).events = st.events := rfl
@[simp]
theorem St.obtain_live (st : St) (v : SeedVar) : (st.obtain v).live = st.live ++ [v] := rfl
@[simp]
theorem St.obtain_key1 (st : St) (v : SeedVar) : (st.obtain v).key1 = st.key1 := rfl
@[simp]
theorem St.obtain_key2 (st : St) (v : SeedVar) : (st.obtain v).key2 = st.key2 := rfl
@[simp]
theorem St.free_events (st : St) (v : SeedVar) (d : Seed) :
    (st.free v d).events = st.events ++ [.polyseed_free v d] := rfl
@[simp]
theorem St.free_live (st : St) (v : SeedVar) (d : Seed) : (st.free v d).live = st.live.erase v := rfl
@[simp]
theorem St.free_key1 (st : St) (v : SeedVar) (d : Seed) : (st.free v d).key1 = st.key1 := rfl
@[simp]
theorem St.free_key2 (st : St) (v : SeedVar) (d : Seed) : (st.free v d).key2 = st.key2 := rfl
@[simp]
theorem St.print_key_events (st : St) (k : List Nat) :
    (st.print_key k).events = st.events ++
      (List.range 32).map (fun i => Event.printf "%02x" [.int ((k.getD i 0 &&& 0xff : Nat) : Int)]) := rfl
@[simp]
theorem St.print_key_live (st : St) (k : List Nat) : (st.print_key k).live = st.live := rfl
@[simp]
theorem St.print_key_key1 (st : St) (k : List Nat) : (st.print_key k).key1 = st.key1 := rfl
@[simp]
theorem St.print_key_key2 (st : St) (k : List Nat) : (st.print_key k).key2 = st.key2 := rfl
@[simp]
theorem St.write_key1_events (st : St) (k : List Nat) : (st.write_key1 k).events = st.events := rfl
@[simp]
theorem St.write_key1_live (st : St) (k : List Nat) : (st.write_key1 k).live = st.live := rfl
@[simp]
theorem St.write_key1_key1 (st : St) (k : List Nat) : (st.write_key1 k).key1 = some k := rfl
@[simp]
theorem St.write_key1_key2 (st : St) (k : List Nat) : (st.write_key1 k).key2 = st.key2 := rfl
@[simp]
theorem St.write_key2_events (st : St) (k : List Nat) : (st.write_key2 k).events = st.events := rfl
@[simp]
theorem St.write_key2_live (st : St) (k : List Nat) : (st.write_key2 k).live = st.live := rfl
@[simp]
theorem St.write_key2_key1 (st : St) (k : List Nat) : (st.write_key2 k).key1 = st.key1 := rfl
@[simp]
theorem St.write_key2_key2 (st : St) (k : List Nat) : (st.write_key2 k).key2 = some k := rfl
@[simp]
theorem polyseed_init_events (st : St) :
    (polyseed_init st).events = st.events ++ [.polyseed_inject
      ⟨some .randombytes_buf, some .crypto_pbkdf2_sha256, some .sodium_memzero, some .utf8_nfc,
        some .utf8_nfkd, none, none, none⟩] := rfl
@[simp]
theorem polyseed_init_live (st : St) : (polyseed_init st).live = st.live := rfl
@[simp]
theorem polyseed_init_key1 (st : St) : (polyseed_init st).key1 = st.key1 := rfl
@[simp]
theorem polyseed_init_key2 (st : St) : (polyseed_init st).key2 = st.key2 := rfl

theorem St.ite_events (c : Prop) [Decidable c] (a b : St) :
    (if c then a else b).events = if c then a.events else b.events := by split <;> rfl
theorem St.ite_live (c : Prop) [Decidable c] (a b : St) :
    (if c then a else b).live = if c then a.live else b.live := by split <;> rfl
theorem St.ite_key1 (c : Prop) [Decidable c] (a b : St) :
    (if c then a else b).key1 = if c then a.key1 else b.key1 := by split <;> rfl
theorem St.ite_key2 (c : Prop) [Decidable c] (a b : St) :
    (if c then a else b).key2 = if c then a.key2 else b.key2 := by split <;> rfl

@[simp]
theorem St.mem_ite_call_events (c : Prop) [Decidable c] (st : St) (e x : Event) :
    x ∈ (if c then st.call e else st).events ↔ x ∈ st.events ∨ (c ∧ x = e) := by
  split <;> simp [*]

theorem c_keygen_unencrypted (lib : Lib) (argc : Int)
    (hcreate : CreateUnencrypted lib) (hflip : CryptFlipsFlag lib) :
    (∀ v d c n, Event.polyseed_keygen v d c n ∈ (main lib argc).events → d.encrypted = false) ∧
    (∀ d pw, Event.polyseed_crypt .seed2 d pw ∈ (main lib argc).events → d.encrypted = true) ∧
    ((main lib argc).outcome = .returned 0 →
      (∃ d, Event.polyseed_keygen .seed1 d lib.POLYSEED_MONERO 32 ∈ (main lib argc).events) ∧
      (∃ d, Event.polyseed_keygen .seed2 d lib.POLYSEED_MONERO 32 ∈ (main lib argc).events)) := by
  unfold main
  simp only []
  split
  · simp
  · split
    · simp
    · rename_i seed1 hc
      have h1 := hcreate _ _ _ hc
      split
      · simp
        intro v d c n hv hd _ _
        rw [hd]; exact h1
      · rename_i lang hl
        split
        · simp
          intro v d c n hv hd _ _
          rw [hd]; exact h1
        · rename_i lang2 seed2 hd
          by_cases henc : is_encrypted seed2 = true
          · simp only [henc, if_true]
            have h2 : seed2.encrypted = true := henc
            simp
            refine ⟨?_, ?_⟩
            · rintro v d c n (h | h)
              · rw [h.2.1]; exact h1
              · rw [h.2.1, hflip, h2]; rfl
            · exact h2
          · simp only [henc, Bool.false_eq_true, if_false]
            have h2 : seed2.encrypted = false := by simpa [is_encrypted] using henc
            simp
            rintro v d c n (h | h)
            · rw [h.2.1]; exact h1
            · rw [h.2.1]; exact h2

theorem get_lang_by_name_mem (langs : List Language) (name : CStr) (lang : Language)
    (h : get_lang_by_name langs name = some lang) : lang ∈ langs := by
  obtain ⟨k, hk, _, hget, _⟩ := loop_some langs name _ 0 lang h
  rw [← hget]
  exact List.get_mem _ _ _

theorem requested_feature (argc : Int) (seed : Seed)
    (h : seed.features = if argc > 1 then FEATURE_FOO else 0) :
    has_feature seed FEATURE_FOO = true ↔ argc > 1 := by
  unfold has_feature
  rw [h]
  split
  · simp [FEATURE_FOO, *]
  · simp [*]

theorem requested_enabled (argc : Int) :
    (if argc > 1 then FEATURE_FOO else 0) &&& (FEATURE_FOO ||| FEATURE_BAR)
      = if argc > 1 then FEATURE_FOO else 0 := by
  split <;> decide

theorem c_seeds_released (lib : Lib) (argc : Int) (status : Int)
    (h : (main lib argc).outcome = .returned status) :
    (main lib argc).live = [] ∧
    (∀ k, (main lib argc).key1 = some k →
      ∃ d, Event.polyseed_keygen .seed1 d lib.POLYSEED_MONERO 32 ∈ (main lib argc).events ∧
        k = lib.polyseed_keygen d lib.POLYSEED_MONERO 32) ∧
    (∀ k, (main lib argc).key2 = some k →
      ∃ d, Event.polyseed_keygen .seed2 d lib.POLYSEED_MONERO 32 ∈ (main lib argc).events ∧
        k = lib.polyseed_keygen d lib.POLYSEED_MONERO 32) := by
  revert h
  unfold main
  simp only []
  split
  · simp
  · split
    · simp
    · rename_i seed1 hc
      split
      · simp
      · rename_i lang hl
        split
        · simp
        · rename_i lang2 seed2 hd
          by_cases henc : is_encrypted seed2 = true
          · simp only [henc, if_true]
            simp [St.ite_live, St.ite_key1, St.ite_key2]
          · simp only [henc, Bool.false_eq_true, if_false]
            simp [St.ite_live, St.ite_key1, St.ite_key2]

theorem c_decrypt_iff (lib : Lib) (argc : Int)
    (h : (main lib argc).outcome = .returned 0) :
    ∀ d, Event.polyseed_is_encrypted .seed2 d ∈ (main lib argc).events →
      (Event.polyseed_crypt .seed2 d password123 ∈ (main lib argc).events ↔ d.encrypted = true) := by
  revert h
  unfold main
  simp only []
  split
  · simp
  · split
    · simp
    · split
      · simp
      · split
        · simp
        · rename_i lang2 seed2 hd
          by_cases henc : is_encrypted seed2 = true
          · simp only [henc, if_true]
            have h2 : seed2.encrypted = true := henc
            simp
            exact h2
          · simp only [henc, Bool.false_eq_true, if_false]
            have h2 : seed2.encrypted = false := by simpa [is_encrypted] using henc
            simp
            exact h2

@[simp]
theorem St.call_calls (st : St) (e : Event) :
    (st.call e).calls = st.calls ++ [e].filter (fun e => !e.is_printf) := by
  simp [St.calls, St.call]

@[simp]
theorem St.obtain_calls (st : St) (v : SeedVar) : (st.obtain v).calls = st.calls := rfl

@[simp]
theorem St.free_calls (st : St) (v : SeedVar) (d : Seed) :
    (st.free v d).calls = st.calls ++ [.polyseed_free v d] := by
  simp [St.calls, St.free, Event.is_printf]

@[simp]
theorem St.print_key_calls (st : St) (k : List Nat) : (st.print_key k).calls = st.calls := by
  simp [St.calls, St.print_key, Event.is_printf]

@[simp]
theorem St.write_key1_calls (st : St) (k : List Nat) : (st.write_key1 k).calls = st.calls := rfl

@[simp]
theorem St.write_key2_calls (st : St) (k : List Nat) : (st.write_key2 k).calls = st.calls := rfl

@[simp]
theorem polyseed_init_calls (st : St) :
    (polyseed_init st).calls = st.calls ++ [.polyseed_inject
      ⟨some .randombytes_buf, some .crypto_pbkdf2_sha256, some .sodium_memzero, some .utf8_nfc,
        some .utf8_nfkd, none, none, none⟩] := by
  simp [polyseed_init, Event.is_printf]

@[simp]
theorem St.ite_printf_calls (c : Prop) [Decidable c] (st : St) (f : String) (a : List Arg) :
    (if c then st.call (.printf f a) else st).calls = st.calls := by
  split <;> simp [Event.is_printf]

theorem c_success_path (lib : Lib) (argc : Int) (seed1 seed2 : Seed) (lang lang2 : Language)
    (h0 : lib.sodium_init ≠ -1)
    (h1 : lib.polyseed_create (FEATURE_FOO ||| FEATURE_BAR) (if argc > 1 then FEATURE_FOO else 0)
      = .ok seed1)
    (h2 : get_lang_by_name lib.langs English = some lang)
    (h3 : lib.polyseed_decode
      (lib.polyseed_encode (lib.polyseed_crypt seed1 password123) lang lib.POLYSEED_MONERO)
      lib.POLYSEED_MONERO = .ok (lang2, seed2)) :
    (main lib argc).outcome = .returned 0 ∧
    (main lib argc).key1 = some (lib.polyseed_keygen seed1 lib.POLYSEED_MONERO 32) ∧
    (main lib argc).key2 = some (lib.polyseed_keygen
      (if is_encrypted seed2 then lib.polyseed_crypt seed2 password123 else seed2)
      lib.POLYSEED_MONERO 32) ∧
    (main lib argc).calls =
      [.sodium_init,
        .polyseed_inject ⟨some .randombytes_buf, some .crypto_pbkdf2_sha256, some .sodium_memzero,
          some .utf8_nfc, some .utf8_nfkd, none, none, none⟩,
        .polyseed_enable_features (FEATURE_FOO ||| FEATURE_BAR),
        .polyseed_create (if argc > 1 then FEATURE_FOO else 0),
        .polyseed_keygen .seed1 seed1 lib.POLYSEED_MONERO 32,
        .polyseed_crypt .seed1 seed1 password123,
        .polyseed_encode .seed1 (lib.polyseed_crypt seed1 password123) (some lang)
          lib.POLYSEED_MONERO,
        .polyseed_free .seed1 (lib.polyseed_crypt seed1 password123),
        .polyseed_decode
          (lib.polyseed_encode (lib.polyseed_crypt seed1 password123) lang lib.POLYSEED_MONERO)
          lib.POLYSEED_MONERO,
        .polyseed_get_lang_name_en lang2,
        .polyseed_is_encrypted .seed2 seed2,
        .polyseed_get_feature .seed2 seed2 FEATURE_FOO,
        .polyseed_is_encrypted .seed2 seed2]
      ++ (if is_encrypted seed2 then [.polyseed_crypt .seed2 seed2 password123] else [])
      ++ [.polyseed_keygen .seed2
            (if is_encrypted seed2 then lib.polyseed_crypt seed2 password123 else seed2)
            lib.POLYSEED_MONERO 32,
          .polyseed_free .seed2
            (if is_encrypted seed2 then lib.polyseed_crypt seed2 password123 else seed2)] := by
  simp only [main, h0, if_false, h1, h2, h3]
  by_cases henc : is_encrypted seed2 = true
  · simp only [henc, if_true]
    simp [St.ite_key1, St.ite_key2, Event.is_printf]
    rfl
  · simp only [henc, Bool.false_eq_true, if_false]
    simp [St.ite_key1, St.ite_key2, Event.is_printf]
    rfl

theorem c_success_only (lib : Lib) (argc : Int) (h : (main lib argc).outcome = .returned 0) :
    ∃ seed1 lang lang2 seed2, lib.sodium_init ≠ -1 ∧
      lib.polyseed_create (FEATURE_FOO ||| FEATURE_BAR) (if argc > 1 then FEATURE_FOO else 0)
        = .ok seed1 ∧
      get_lang_by_name lib.langs English = some lang ∧
      lib.polyseed_decode
        (lib.polyseed_encode (lib.polyseed_crypt seed1 password123) lang lib.POLYSEED_MONERO)
        lib.POLYSEED_MONERO = .ok (lang2, seed2) := by
  revert h
  unfold main
  simp only []
  split
  · simp
  · rename_i h0
    split
    · simp
    · rename_i seed1 hc
      split
      · simp
      · rename_i lang hl
        split
        · simp
        · rename_i lang2 seed2 hd
          intro _
          exact ⟨seed1, lang, lang2, seed2, h0, hc, hl, hd⟩

theorem c_feature_path (lib : Lib) (argc : Int) (seed1 seed2 : Seed) (lang lang2 : Language)
    (h0 : lib.sodium_init ≠ -1)
    (h1 : lib.polyseed_create (FEATURE_FOO ||| FEATURE_BAR) (if argc > 1 then FEATURE_FOO else 0)
      = .ok seed1)
    (h2 : get_lang_by_name lib.langs English = some lang)
    (h3 : lib.polyseed_decode
      (lib.polyseed_encode (lib.polyseed_crypt seed1 password123) lang lib.POLYSEED_MONERO)
      lib.POLYSEED_MONERO = .ok (lang2, seed2)) :
    (∀ v d m, Event.polyseed_get_feature v d m ∈ (main lib argc).events →
      v = .seed2 ∧ d = seed2 ∧ m = FEATURE_FOO) ∧
    (Event.printf "Seed has the 'Foo' feature\n" [] ∈ (main lib argc).events ↔
      has_feature seed2 FEATURE_FOO = true) := by
  simp only [main, h0, if_false, h1, h2, h3]
  by_cases henc : is_encrypted seed2 = true
  · simp only [henc, if_true]
    simp
  · simp only [henc, Bool.false_eq_true, if_false]
    simp

theorem c_feature_equal (lib : Lib) (p : Params) (argc : Int) (seed1 seed2 : Seed)
    (lang lang2 : Language)
    (h1 : lib.polyseed_create (FEATURE_FOO ||| FEATURE_BAR) (if argc > 1 then FEATURE_FOO else 0)
      = .ok seed1)
    (h2 : get_lang_by_name lib.langs English = some lang)
    (h3 : lib.polyseed_decode
      (lib.polyseed_encode (lib.polyseed_crypt seed1 password123) lang lib.POLYSEED_MONERO)
      lib.POLYSEED_MONERO = .ok (lang2, seed2))
    (hfeat : CreateStoresFeatures lib) (hvalid : CreateValid lib p)
    (hkeepf : CryptKeepsFeatures lib) (hkeep : CryptKeepsValid lib p)
    (hdec : DecodeUndoesEncode lib p) :
    seed2 = lib.polyseed_crypt seed1 password123 ∧
    seed2.features = (if argc > 1 then FEATURE_FOO else 0) ∧
    (has_feature seed2 FEATURE_FOO = true ↔ argc > 1) := by
  have hs2 := hdec _ _ _ _ _ (hkeep _ password123 (hvalid _ _ _ h1))
    (get_lang_by_name_mem _ _ _ h2) h3
  subst hs2
  have hf : (lib.polyseed_crypt seed1 password123).features
      = if argc > 1 then FEATURE_FOO else 0 := by
    rw [hkeepf, hfeat _ _ _ h1 (requested_enabled argc)]
  exact ⟨rfl, hf, requested_feature argc _ hf⟩

end Main1

namespace Main2
open Polyseed

@[simp]
theorem St.call_events_cpp (st : St) (e : Event) : (st.call e).events = st.events ++ [e] := rfl
@[simp]
theorem St.call_key1_cpp (st : St) (e : Event) : (st.call e).key1 = st.key1 := rfl
@[simp]
theorem St.call_key2_cpp (st : St) (e : Event) : (st.call e).key2 = st.key2 := rfl
@[simp]
theorem St.cout_events_cpp (st : St) (os : List Out) :
    (st.cout os).events = st.events ++ os.map Event.cout := rfl
@[simp]
theorem St.cout_key1_cpp (st : St) (os : List Out) : (st.cout os).key1 = st.key1 := rfl
@[simp]
theorem St.cout_key2_cpp (st : St) (os : List Out) : (st.cout os).key2 = st.key2 := rfl
@[simp]
theorem St.print_key_events_cpp (st : St) (k : List Nat) :
    (st.print_key k).events = st.events ++
      (List.range 32).map (fun i => Event.cout (.hex ((k.getD i 0 : Nat) : Int))) := rfl
@[simp]
theorem St.print_key_key1_cpp (st : St) (k : List Nat) : (st.print_key k).key1 = st.key1 := rfl
@[simp]
theorem St.print_key_key2_cpp (st : St) (k : List Nat) : (st.print_key k).key2 = st.key2 := rfl
@[simp]
theorem St.write_key1_events_cpp (st : St) (k : List Nat) : (st.write_key1 k).events = st.events := rfl
@[simp]
theorem St.write_key1_key1_cpp (st : St) (k : List Nat) : (st.write_key1 k).key1 = some k := rfl
@[simp]
theorem St.write_key1_key2_cpp (st : St) (k : List Nat) : (st.write_key1 k).key2 = st.key2 := rfl
@[simp]
theorem St.write_key2_events_cpp (st : St) (k : List Nat) : (st.write_key2 k).events = st.events := rfl
@[simp]
theorem St.write_key2_key1_cpp (st : St) (k : List Nat) : (st.write_key2 k).key1 = st.key1 := rfl
@[simp]
theorem St.write_key2_key2_cpp (st : St) (k : List Nat) : (st.write_key2 k).key2 = some k := rfl

@[simp]
theorem St.mem_ite_cout_events_cpp (c : Prop) [Decidable c] (st : St) (os : List Out) (x : Event) :
    x ∈ (if c then st.cout os else st).events ↔ x ∈ st.events ∨ (c ∧ x ∈ os.map Event.cout) := by
  split <;> simp [*]

@[simp]
theorem St.ite_cout_key1_cpp (c : Prop) [Decidable c] (st : St) (os : List Out) :
    (if c then st.cout os else st).key1 = st.key1 := by split <;> rfl

@[simp]
theorem St.ite_cout_key2_cpp (c : Prop) [Decidable c] (st : St) (os : List Out) :
    (if c then st.cout os else st).key2 = st.key2 := by split <;> rfl

theorem requested_feature_cpp (argc : Int) (seed : Seed)
    (h : seed.features = if argc > 1 then FEATURE_FOO else 0) :
    has_feature seed FEATURE_FOO = true ↔ argc > 1 := by
  unfold has_feature
  rw [h]
  split
  · simp [FEATURE_FOO, *]
  · simp [*]

theorem requested_enabled_cpp (argc : Int) :
    (if argc > 1 then FEATURE_FOO else 0) &&& (FEATURE_FOO ||| FEATURE_BAR)
      = if argc > 1 then FEATURE_FOO else 0 := by
  split <;> decide

theorem cpp_keygen_unencrypted (hpp : Hpp) (argc : Int)
    (hcreate : CreateUnencrypted hpp) (hflip : CryptFlipsFlag hpp) :
    (∀ v d n, Event.keygen v d n ∈ (main hpp argc).events → d.encrypted = false) ∧
    (∀ d pw, Event.crypt .seed2 d pw ∈ (main hpp argc).events → d.encrypted = true) ∧
    ((main hpp argc).outcome = .returned 0 →
      (∃ d, Event.keygen .seed1 d 32 ∈ (main hpp argc).events) ∧
      (∃ d, Event.keygen .seed2 d 32 ∈ (main hpp argc).events)) := by
  unfold main
  simp only []
  split
  · simp
  · rename_i seed1 hc
    have h1 := hcreate _ _ _ _ hc
    have hk : ∀ (v : SeedVar) (d : Seed) (n : Nat), v = SeedVar.seed1 → d = seed1 → n = 32 →
        d.encrypted = false := fun v d n _ hd _ => by rw [hd]; exact h1
    split
    · simpa using hk
    · rename_i key1 hk1
      split
      · simpa using hk
      · rename_i seed1' hcr
        split
        · simpa using hk
        · simpa using hk
        · rename_i lang hl
          split
          · simpa using hk
          · simpa using hk
          · rename_i phrase he
            split
            · simpa using hk
            · simpa using hk
            · rename_i lang2 seed2 hd
              by_cases henc : is_encrypted seed2 = true
              · simp only [henc, if_true]
                have h2 : seed2.encrypted = true := henc
                split
                · simp
                  exact ⟨hk, h2⟩
                · rename_i seed2' hcr2
                  have h3 : seed2'.encrypted = false := by rw [hflip _ _ _ _ hcr2, h2]; rfl
                  split
                  · simp
                    refine ⟨?_, h2⟩
                    rintro v d n (h | h)
                    · exact hk v d n h.1 h.2.1 h.2.2
                    · rw [h.2.1]; exact h3
                  · simp
                    refine ⟨?_, h2⟩
                    rintro v d n (h | h)
                    · exact hk v d n h.1 h.2.1 h.2.2
                    · rw [h.2.1]; exact h3
              · simp only [henc, Bool.false_eq_true, if_false]
                have h2 : seed2.encrypted = false := by simpa [is_encrypted] using henc
                split
                · simp
                  rintro v d n (h | h)
                  · exact hk v d n h.1 h.2.1 h.2.2
                  · rw [h.2.1]; exact h2
                · simp
                  rintro v d n (h | h)
                  · exact hk v d n h.1 h.2.1 h.2.2
                  · rw [h.2.1]; exact h2

theorem cpp_decrypt_iff (hpp : Hpp) (argc : Int)
    (h : (main hpp argc).outcome = .returned 0) :
    ∀ d, Event.encrypted .seed2 d ∈ (main hpp argc).events →
      (Event.crypt .seed2 d password123 ∈ (main hpp argc).events ↔ d.encrypted = true) := by
  revert h
  unfold main
  simp only []
  split
  · simp
  · split
    · simp
    · split
      · simp
      · split
        · simp
        · simp
        · split
          · simp
          · simp
          · split
            · simp
            · simp
            · rename_i lang2 seed2 hd
              by_cases henc : is_encrypted seed2 = true
              · simp only [henc, if_true]
                have h2 : seed2.encrypted = true := henc
                split
                · simp
                · split
                  · simp
                  · simp
                    exact h2
              · simp only [henc, Bool.false_eq_true, if_false]
                have h2 : seed2.encrypted = false := by simpa [is_encrypted] using henc
                split
                · simp
                · simp
                  exact h2

@[simp]
theorem St.call_calls_cpp (st : St) (e : Event) :
    (st.call e).calls = st.calls ++ [e].filter (fun e => !e.is_cout) := by
  simp [St.calls, St.call]

@[simp]
theorem St.cout_calls_cpp (st : St) (os : List Out) : (st.cout os).calls = st.calls := by
  simp [St.calls, St.cout, Event.is_cout]

@[simp]
theorem St.print_key_calls_cpp (st : St) (k : List Nat) : (st.print_key k).calls = st.calls := by
  simp [St.calls, St.print_key, Event.is_cout]

@[simp]
theorem St.write_key1_calls_cpp (st : St) (k : List Nat) : (st.write_key1 k).calls = st.calls := rfl

@[simp]
theorem St.write_key2_calls_cpp (st : St) (k : List Nat) : (st.write_key2 k).calls = st.calls := rfl

@[simp]
theorem St.ite_cout_calls_cpp (c : Prop) [Decidable c] (st : St) (os : List Out) :
    (if c then st.cout os else st).calls = st.calls := by
  split <;> simp

theorem cpp_success_only (hpp : Hpp) (argc : Int) (h : (main hpp argc).outcome = .returned 0) :
    ∃ seed1 k1 seed1' lang phrase lang2 seed2 seed2' k2,
      hpp.create (FEATURE_FOO ||| FEATURE_BAR) hpp.POLYSEED_MONERO
        (if argc > 1 then FEATURE_FOO else 0) = .ok seed1 ∧
      hpp.keygen seed1 hpp.POLYSEED_MONERO 32 = .ok k1 ∧
      hpp.crypt seed1 hpp.POLYSEED_MONERO password123 = .ok seed1' ∧
      hpp.get_lang_by_name English = .ok lang ∧
      hpp.encode seed1' hpp.POLYSEED_MONERO lang = .ok phrase ∧
      hpp.decode hpp.POLYSEED_MONERO phrase = .ok (lang2, seed2) ∧
      (if is_encrypted seed2 then hpp.crypt seed2 hpp.POLYSEED_MONERO password123
        else .ok seed2) = .ok seed2' ∧
      hpp.keygen seed2' hpp.POLYSEED_MONERO 32 = .ok k2 := by
  revert h
  unfold main
  simp only []
  split
  · intro h; cases h
  · rename_i seed1 hc
    split
    · intro h; cases h
    · rename_i key1 hk1
      split
      · intro h; cases h
      · rename_i seed1' hcr
        split
        · intro h; cases h
        · intro h; cases h
        · rename_i lang hl
          split
          · intro h; cases h
          · intro h; cases h
          · rename_i phrase he
            split
            · intro h; cases h
            · intro h; cases h
            · rename_i lang2 seed2 hd
              by_cases henc : is_encrypted seed2 = true
              · simp only [henc, if_true]
                split
                · intro h; cases h
                · rename_i seed2' hcr2
                  split
                  · intro h; cases h
                  · rename_i key2 hk2
                    intro _
                    exact ⟨seed1, key1, seed1', lang, phrase, lang2, seed2, seed2', key2,
                      hc, hk1, hcr, hl, he, hd, by rw [if_pos henc]; exact hcr2, hk2⟩
              · simp only [henc, Bool.false_eq_true, if_false]
                split
                · intro h; cases h
                · rename_i key2 hk2
                  intro _
                  exact ⟨seed1, key1, seed1', lang, phrase, lang2, seed2, seed2, key2,
                    hc, hk1, hcr, hl, he, hd, by rw [if_neg henc], hk2⟩

theorem cpp_feature_path (hpp : Hpp) (argc : Int) (seed1 seed1' seed2 : Seed)
    (k1 : List Nat) (lang lang2 : Language) (phrase : CStr)
    (h1 : hpp.create (FEATURE_FOO ||| FEATURE_BAR) hpp.POLYSEED_MONERO
      (if argc > 1 then FEATURE_FOO else 0) = .ok seed1)
    (h2 : hpp.keygen seed1 hpp.POLYSEED_MONERO 32 = .ok k1)
    (h3 : hpp.crypt seed1 hpp.POLYSEED_MONERO password123 = .ok seed1')
    (h4 : hpp.get_lang_by_name English = .ok lang)
    (h5 : hpp.encode seed1' hpp.POLYSEED_MONERO lang = .ok phrase)
    (h6 : hpp.decode hpp.POLYSEED_MONERO phrase = .ok (lang2, seed2)) :
    (∀ v d m, Event.has_feature v d m ∈ (main hpp argc).events →
      v = .seed2 ∧ d = seed2 ∧ m = FEATURE_FOO) ∧
    Event.create .seed1 (if argc > 1 then FEATURE_FOO else 0) ∈ (main hpp argc).events ∧
    Event.crypt .seed1 seed1 password123 ∈ (main hpp argc).events ∧
    Event.encode .seed1 seed1' lang ∈ (main hpp argc).events ∧
    Event.decode .seed2 phrase ∈ (main hpp argc).events ∧
    Event.has_feature .seed2 seed2 FEATURE_FOO ∈ (main hpp argc).events ∧
    (Event.cout (.lit "Seed has the 'Foo' feature") ∈ (main hpp argc).events ↔
      has_feature seed2 FEATURE_FOO = true) := by
  simp only [main, h1, h2, h3, h4, h5, h6]
  by_cases henc : is_encrypted seed2 = true
  · simp only [henc, if_true]
    split
    · simp
    · split <;> simp
  · simp only [henc, Bool.false_eq_true, if_false]
    split <;> simp

theorem cpp_feature_equal (hpp : Hpp) (p : Params) (argc : Int) (seed1 seed1' seed2 : Seed)
    (lang lang2 : Language) (phrase : CStr)
    (h1 : hpp.create (FEATURE_FOO ||| FEATURE_BAR) hpp.POLYSEED_MONERO
      (if argc > 1 then FEATURE_FOO else 0) = .ok seed1)
    (h3 : hpp.crypt seed1 hpp.POLYSEED_MONERO password123 = .ok seed1')
    (h5 : hpp.encode seed1' hpp.POLYSEED_MONERO lang = .ok phrase)
    (h6 : hpp.decode hpp.POLYSEED_MONERO phrase = .ok (lang2, seed2))
    (hfeat : CreateStoresFeatures hpp) (hvalid : CreateValid hpp p)
    (hkeepf : CryptKeepsFeatures hpp) (hkeep : CryptKeepsValid hpp p)
    (hdec : DecodeUndoesEncode hpp p) :
    seed2 = seed1' ∧ seed2.features = (if argc > 1 then FEATURE_FOO else 0) ∧
    (has_feature seed2 FEATURE_FOO = true ↔ argc > 1) := by
  have hs2 := hdec _ _ _ _ _ _ (hkeep _ _ _ _ (hvalid _ _ _ _ h1) h3) h5 h6
  subst hs2
  have hf : seed2.features = if argc > 1 then FEATURE_FOO else 0 := by
    rw [hkeepf _ _ _ _ h3, hfeat _ _ _ _ h1 (requested_enabled_cpp argc)]
  exact ⟨rfl, hf, requested_feature_cpp argc _ hf⟩

end Main2

namespace Main1
open Polyseed

theorem seedOf_phraseOf (seed : Seed) : seedOf (phraseOf seed) = .ok (langA, seed) := by
  obtain ⟨secret, ts, feat, enc⟩ := seed
  unfold seedOf phraseOf
  simp only [List.reverse_append, List.reverse_cons, List.reverse_nil, List.nil_append,
    List.cons_append, List.singleton_append]
  simp only [List.reverse_reverse, List.map_map, Nat.add_sub_cancel]
  have hid : ((fun x : Nat => x - 1) ∘ fun x : Nat => x + 1) = id := by
    funext x
    simp
  rw [hid, List.map_id]
  cases enc <;> rfl

theorem demoLib_create : CreateUnencrypted demoLib := by
  intro e f s h
  simp only [demoLib] at h
  split at h
  · cases h; rfl
  · cases h

theorem demoLib_features : CreateStoresFeatures demoLib := by
  intro e f s h _
  simp only [demoLib] at h
  split at h
  · cases h; rfl
  · cases h

theorem demoLib_valid : CreateValid demoLib smallParams := by
  intro e f s h
  simp only [demoLib] at h
  split at h
  · rename_i hf
    cases h
    exact ⟨rfl, by simp, by simp [smallParams], hf⟩
  · cases h

theorem demoLib_flip : CryptFlipsFlag demoLib := fun _ _ => rfl

theorem demoLib_keep : CryptKeepsFeatures demoLib := fun _ _ => rfl

theorem demoLib_keepValid : CryptKeepsValid demoLib smallParams :=
  fun seed password h => toggle_small_valid seed password h

theorem demoLib_decode : DecodeUndoesEncode demoLib smallParams := by
  intro s l c l' s' _ _ h
  simp only [demoLib, seedOf_phraseOf, Except.ok.injEq, Prod.mk.injEq] at h
  exact h.2.symm

end Main1

namespace Main2
open Polyseed

theorem demoHpp_create : CreateUnencrypted demoHpp := by
  intro e c f s h
  simp only [demoHpp] at h
  split at h
  · cases h; rfl
  · cases h

theorem demoHpp_features : CreateStoresFeatures demoHpp := by
  intro e c f s h _
  simp only [demoHpp] at h
  split at h
  · cases h; rfl
  · cases h

theorem demoHpp_valid : CreateValid demoHpp smallParams := by
  intro e c f s h
  simp only [demoHpp] at h
  split at h
  · rename_i hf
    cases h
    exact ⟨rfl, by simp, by simp [smallParams], hf⟩
  · cases h

theorem demoHpp_flip : CryptFlipsFlag demoHpp := by
  intro s c pw s' h
  simp only [demoHpp, Except.ok.injEq] at h
  rw [← h]; rfl

theorem demoHpp_keep : CryptKeepsFeatures demoHpp := by
  intro s c pw s' h
  simp only [demoHpp, Except.ok.injEq] at h
  rw [← h]; rfl

theorem demoHpp_keepValid : CryptKeepsValid demoHpp smallParams := by
  intro s c pw s' hv h
  simp only [demoHpp, Except.ok.injEq] at h
  rw [← h]
  exact toggle_small_valid s pw hv

theorem demoHpp_decode : DecodeUndoesEncode demoHpp smallParams := by
  intro s c l p l' s' _ h h'
  simp only [demoHpp, Except.ok.injEq] at h h'
  rw [← h, Main1.seedOf_phraseOf] at h'
  simp only [Except.ok.injEq, Prod.mk.injEq] at h'
  exact h'.2.symm

end Main2

/-! The claims -/

/-- C2, as amended: for a layout, a valid seed and a registered language that
satisfy the invariants of the data model, in a registry without repetition,
decoding the phrase of `encode` returns the same seed and the same language
exactly when no other registered language yields a checksum-valid
reconstruction of the phrase; otherwise it fails with `AmbiguousLanguageError`. -/
theorem Polyseed.decode_encode_roundtrip (p : Polyseed.Params) (registry : List Polyseed.Language)
    (seed : Polyseed.Seed) (l : Polyseed.Language)
    (hp : p.wf) (hs : seed.valid p) (hl : l.wf p) (hreg : l ∈ registry) (hnd : registry.Nodup) :
    (Polyseed.decode p registry (Polyseed.encode p seed l) = .ok (seed, l) ↔
      ∀ l' ∈ registry, l' ≠ l → Polyseed.reconstruct p l' (Polyseed.encode p seed l) = none) ∧
    (Polyseed.decode p registry (Polyseed.encode p seed l) = .ok (seed, l) ∨
      Polyseed.decode p registry (Polyseed.encode p seed l) = .error .AmbiguousLanguageError) := by
  refine ⟨⟨Polyseed.decode_ok_unique p registry _ seed l,
    Polyseed.decode_encode_of_unique p registry seed l hp hs hl hreg hnd⟩, ?_⟩
  by_cases h : ∀ l' ∈ registry, l' ≠ l →
      Polyseed.reconstruct p l' (Polyseed.encode p seed l) = none
  · exact Or.inl (Polyseed.decode_encode_of_unique p registry seed l hp hs hl hreg hnd h)
  · right
    have hmem := Polyseed.mem_validating p registry seed l hp hs hl hreg
    have hknown := Polyseed.encode_known p registry seed l hp hs hl hreg
    unfold Polyseed.decode
    rw [if_neg (by rw [Polyseed.encode_length]; simp), hknown]
    simp only [Bool.false_eq_true, if_false]
    split
    · rename_i hnil
      rw [hnil] at hmem
      simp at hmem
    · rename_i found hone
      exfalso
      apply h
      intro l' hl' hne
      cases hrec : Polyseed.reconstruct p l' (Polyseed.encode p seed l) with
      | none => rfl
      | some s' =>
        have hmem' : (s', l') ∈ registry.filterMap (fun l'' =>
            (Polyseed.reconstruct p l'' (Polyseed.encode p seed l)).map (fun seed' => (seed', l''))) := by
          rw [List.mem_filterMap]
          exact ⟨l', hl', by rw [hrec]; rfl⟩
        rw [hone] at hmem hmem'
        simp only [List.mem_singleton] at hmem hmem'
        rw [← hmem] at hmem'
        exact absurd (Prod.mk.inj hmem').2 hne
    · rfl

/-- Counterexample to C2 as stated: with two registered languages that share a
word list, the phrase of a valid seed in the first one does not decode, the
result is `AmbiguousLanguageError`. -/
theorem Polyseed.decode_encode_ambiguous :
    Polyseed.smallParams.wf ∧ Polyseed.smallSeed.valid Polyseed.smallParams ∧
    Polyseed.langA.wf Polyseed.smallParams ∧ Polyseed.langB.wf Polyseed.smallParams ∧
    Polyseed.langA ∈ [Polyseed.langA, Polyseed.langB] ∧
    [Polyseed.langA, Polyseed.langB].Nodup ∧
    Polyseed.decode Polyseed.smallParams [Polyseed.langA, Polyseed.langB]
      (Polyseed.encode Polyseed.smallParams Polyseed.smallSeed Polyseed.langA)
      = .error .AmbiguousLanguageError :=
  ⟨Polyseed.smallParams_wf, Polyseed.smallSeed_valid, Polyseed.langA_wf, Polyseed.langB_wf,
    by decide, by decide, by decide⟩

/-- Witness of C2 as amended: in the registry of `langA` and `langC` the phrase
of `smallSeed` in `langA` decodes to `smallSeed` and `langA`. -/
theorem Polyseed.decode_encode_roundtrip_witness :
    Polyseed.smallParams.wf ∧ Polyseed.smallSeed.valid Polyseed.smallParams ∧
    Polyseed.langA.wf Polyseed.smallParams ∧
    Polyseed.langA ∈ [Polyseed.langA, Polyseed.langC] ∧
    [Polyseed.langA, Polyseed.langC].Nodup ∧
    Polyseed.decode Polyseed.smallParams [Polyseed.langA, Polyseed.langC]
      (Polyseed.encode Polyseed.smallParams Polyseed.smallSeed Polyseed.langA)
      = .ok (Polyseed.smallSeed, Polyseed.langA) :=
  ⟨Polyseed.smallParams_wf, Polyseed.smallSeed_valid, Polyseed.langA_wf, by decide, by decide,
    (Polyseed.decode_encode_roundtrip Polyseed.smallParams [Polyseed.langA, Polyseed.langC]
      Polyseed.smallSeed Polyseed.langA Polyseed.smallParams_wf Polyseed.smallSeed_valid
      Polyseed.langA_wf (by decide) (by decide)).1.2 (by decide)⟩

/-- C3: encryption involution. For every seed and password, toggling twice
with the same password restores the seed (secret bytes and flag), and one
application flips the flag and keeps the length of the secret. -/
theorem Polyseed.toggle_encryption_involution (p : Polyseed.Params) (seed : Polyseed.Seed)
    (password : CStr) :
    Polyseed.toggle_encryption p (Polyseed.toggle_encryption p seed password) password = seed ∧
    (Polyseed.toggle_encryption p seed password).encrypted = !seed.encrypted ∧
    (Polyseed.toggle_encryption p seed password).secret.length = seed.secret.length := by
  refine ⟨?_, rfl, ?_⟩
  · unfold Polyseed.toggle_encryption Polyseed.Params.apply
    simp only [Polyseed.combine_length, Polyseed.combine_combine, Bool.not_not]
  · simp [Polyseed.toggle_encryption, Polyseed.Params.apply, Polyseed.combine_length]

/-- C4: the state guard at the call sites. When a new seed is unencrypted and
crypt flips the flag, every key derivation of either demo is made on a seed
whose `encrypted` flag is false; in a run that returns 0 a key is derived from
both seeds, and crypt is applied to the decoded seed exactly when its flag is
true. -/
theorem demo_keygen_unencrypted (lib : Main1.Lib) (hpp : Main2.Hpp) (argc : Int)
    (hc1 : Main1.CreateUnencrypted lib) (hf1 : Main1.CryptFlipsFlag lib)
    (hc2 : Main2.CreateUnencrypted hpp) (hf2 : Main2.CryptFlipsFlag hpp) :
    ((∀ v d c n, Main1.Event.polyseed_keygen v d c n ∈ (Main1.main lib argc).events →
        d.encrypted = false) ∧
      (∀ d pw, Main1.Event.polyseed_crypt .seed2 d pw ∈ (Main1.main lib argc).events →
        d.encrypted = true) ∧
      ((Main1.main lib argc).outcome = .returned 0 →
        (∃ d, Main1.Event.polyseed_keygen .seed1 d lib.POLYSEED_MONERO 32
          ∈ (Main1.main lib argc).events) ∧
        (∃ d, Main1.Event.polyseed_keygen .seed2 d lib.POLYSEED_MONERO 32
          ∈ (Main1.main lib argc).events) ∧
        ∀ d, Main1.Event.polyseed_is_encrypted .seed2 d ∈ (Main1.main lib argc).events →
          (Main1.Event.polyseed_crypt .seed2 d password123 ∈ (Main1.main lib argc).events
            ↔ d.encrypted = true))) ∧
    ((∀ v d n, Main2.Event.keygen v d n ∈ (Main2.main hpp argc).events → d.encrypted = false) ∧
      (∀ d pw, Main2.Event.crypt .seed2 d pw ∈ (Main2.main hpp argc).events →
        d.encrypted = true) ∧
      ((Main2.main hpp argc).outcome = .returned 0 →
        (∃ d, Main2.Event.keygen .seed1 d 32 ∈ (Main2.main hpp argc).events) ∧
        (∃ d, Main2.Event.keygen .seed2 d 32 ∈ (Main2.main hpp argc).events) ∧
        ∀ d, Main2.Event.encrypted .seed2 d ∈ (Main2.main hpp argc).events →
          (Main2.Event.crypt .seed2 d password123 ∈ (Main2.main hpp argc).events
            ↔ d.encrypted = true))) := by
  have h1 := Main1.c_keygen_unencrypted lib argc hc1 hf1
  have h2 := Main2.cpp_keygen_unencrypted hpp argc hc2 hf2
  exact ⟨⟨h1.1, h1.2.1, fun h => ⟨(h1.2.2 h).1, (h1.2.2 h).2, Main1.c_decrypt_iff lib argc h⟩⟩,
    ⟨h2.1, h2.2.1, fun h => ⟨(h2.2.2 h).1, (h2.2.2 h).2, Main2.cpp_decrypt_iff hpp argc h⟩⟩⟩

/-- Witness of C4: at `demoLib` and `demoHpp` both demos return 0, and the
seeds given to the key derivation are unencrypted. -/
theorem demo_keygen_unencrypted_witness :
    (Main1.main Main1.demoLib 2).outcome = .returned 0 ∧
    (Main2.main Main2.demoHpp 2).outcome = .returned 0 ∧
    (∀ v d c n, Main1.Event.polyseed_keygen v d c n ∈ (Main1.main Main1.demoLib 2).events →
      d.encrypted = false) ∧
    (∀ v d n, Main2.Event.keygen v d n ∈ (Main2.main Main2.demoHpp 2).events →
      d.encrypted = false) :=
  ⟨by decide, by decide,
    (demo_keygen_unencrypted Main1.demoLib Main2.demoHpp 2 Main1.demoLib_create
      Main1.demoLib_flip Main2.demoHpp_create Main2.demoHpp_flip).1.1,
    (demo_keygen_unencrypted Main1.demoLib Main2.demoHpp 2 Main1.demoLib_create
      Main1.demoLib_flip Main2.demoHpp_create Main2.demoHpp_flip).2.1⟩

/-- C5: language lookup by name. `get_lang_by_name` returns a language exactly
when it is the entry of lowest index of the registry whose English name or
display name equals the given name, and returns NULL exactly when no entry of
the registry has that English or display name. -/
theorem Main1.get_lang_by_name_first_match (langs : List Polyseed.Language) (name : CStr) :
    (∀ lang, Main1.get_lang_by_name langs name = some lang ↔
      ∃ k, ∃ h : k < langs.length, langs.get ⟨k, h⟩ = lang ∧
        (lang.name_en = name ∨ lang.name = name) ∧
        ∀ j, ∀ hj : j < langs.length, j < k →
          ¬ ((langs.get ⟨j, hj⟩).name_en = name ∨ (langs.get ⟨j, hj⟩).name = name)) ∧
    (Main1.get_lang_by_name langs name = none ↔
      ∀ lang ∈ langs, lang.name_en ≠ name ∧ lang.name ≠ name) := by
  have hnone : Main1.get_lang_by_name langs name = none →
      ∀ j, ∀ hj : j < langs.length,
        ¬ ((langs.get ⟨j, hj⟩).name_en = name ∨ (langs.get ⟨j, hj⟩).name = name) :=
    fun h j hj => Main1.loop_none langs name _ 0
      (by unfold Main1.polyseed_get_num_langs; omega) h j hj (Nat.zero_le _)
  have hsome : ∀ lang, Main1.get_lang_by_name langs name = some lang →
      ∃ k, ∃ h : k < langs.length, langs.get ⟨k, h⟩ = lang ∧
        (lang.name_en = name ∨ lang.name = name) ∧
        ∀ j, ∀ hj : j < langs.length, j < k →
          ¬ ((langs.get ⟨j, hj⟩).name_en = name ∨ (langs.get ⟨j, hj⟩).name = name) := by
    intro lang h
    obtain ⟨k, hk, _, hget, hm, hmin⟩ := Main1.loop_some langs name _ 0 lang h
    exact ⟨k, hk, hget, hm, fun j hj hjk => hmin j hj (Nat.zero_le _) hjk⟩
  refine ⟨fun lang => ⟨hsome lang, ?_⟩, ⟨?_, ?_⟩⟩
  · rintro ⟨k, hk, hget, hm, hmin⟩
    cases hres : Main1.get_lang_by_name langs name with
    | none =>
      exact absurd (hget ▸ hm) (hnone hres k hk)
    | some lang' =>
      obtain ⟨k', hk', hget', hm', hmin'⟩ := hsome lang' hres
      have hkk : k' = k := by
        rcases Nat.lt_trichotomy k' k with hlt | heq | hgt
        · exact absurd (hget' ▸ hm') (hmin k' hk' hlt)
        · exact heq
        · exact absurd (hget ▸ hm) (hmin' k hk hgt)
      subst hkk
      rw [← hget, ← hget']
  · intro h lang hlang
    obtain ⟨j, hj, rfl⟩ := List.mem_iff_get.1 hlang
    have := hnone h j.1 j.2
    exact ⟨fun e => this (Or.inl e), fun e => this (Or.inr e)⟩
  · intro h
    cases hres : Main1.get_lang_by_name langs name with
    | none => rfl
    | some lang =>
      obtain ⟨k, hk, hget, hm, _⟩ := hsome lang hres
      have := h lang (hget ▸ List.get_mem _ _ _)
      rcases hm with e | e
      · exact absurd e this.1
      · exact absurd e this.2

/-- C6: the feature bit survives the cycle. On every run in which create, the
lookup of "English" and decode succeed (in the C++ demo: no call up to decode
throws), the only feature test is made on the seed that decode returned, with
`FEATURE_FOO`, after the create with the request `argc > 1 ? FEATURE_FOO : 0`,
the crypt, the encode and the decode, and the message about the feature is
printed exactly when the test is true; a run returns 0 only in this way. When
moreover create stores a request that lies inside the enabled mask and yields a
valid seed, crypt leaves the features alone and keeps a seed valid, and a
successful decode of the phrase of a valid seed returns that seed, the decoded
seed carries the requested features and the test is true exactly when
`argc > 1`. -/
theorem demo_feature_survives (lib : Main1.Lib) (hpp : Main2.Hpp) (p : Polyseed.Params)
    (argc : Int) :
    ((∀ seed1 lang lang2 seed2,
      lib.sodium_init ≠ -1 →
      lib.polyseed_create (Main1.FEATURE_FOO ||| Main1.FEATURE_BAR)
        (if argc > 1 then Main1.FEATURE_FOO else 0) = .ok seed1 →
      Main1.get_lang_by_name lib.langs English = some lang →
      lib.polyseed_decode
        (lib.polyseed_encode (lib.polyseed_crypt seed1 password123) lang lib.POLYSEED_MONERO)
        lib.POLYSEED_MONERO = .ok (lang2, seed2) →
      (∀ v d m, Main1.Event.polyseed_get_feature v d m ∈ (Main1.main lib argc).events →
        v = .seed2 ∧ d = seed2 ∧ m = Main1.FEATURE_FOO) ∧
      (Main1.main lib argc).calls =
        [.sodium_init,
          .polyseed_inject ⟨some .randombytes_buf, some .crypto_pbkdf2_sha256,
            some .sodium_memzero, some .utf8_nfc, some .utf8_nfkd, none, none, none⟩,
          .polyseed_enable_features (Main1.FEATURE_FOO ||| Main1.FEATURE_BAR),
          .polyseed_create (if argc > 1 then Main1.FEATURE_FOO else 0),
          .polyseed_keygen .seed1 seed1 lib.POLYSEED_MONERO 32,
          .polyseed_crypt .seed1 seed1 password123,
          .polyseed_encode .seed1 (lib.polyseed_crypt seed1 password123) (some lang)
            lib.POLYSEED_MONERO,
          .polyseed_free .seed1 (lib.polyseed_crypt seed1 password123),
          .polyseed_decode
            (lib.polyseed_encode (lib.polyseed_crypt seed1 password123) lang lib.POLYSEED_MONERO)
            lib.POLYSEED_MONERO,
          .polyseed_get_lang_name_en lang2,
          .polyseed_is_encrypted .seed2 seed2,
          .polyseed_get_feature .seed2 seed2 Main1.FEATURE_FOO,
          .polyseed_is_encrypted .seed2 seed2]
        ++ (if Polyseed.is_encrypted seed2 then [.polyseed_crypt .seed2 seed2 password123] else [])
        ++ [.polyseed_keygen .seed2
              (if Polyseed.is_encrypted seed2 then lib.polyseed_crypt seed2 password123 else seed2)
              lib.POLYSEED_MONERO 32,
            .polyseed_free .seed2
              (if Polyseed.is_encrypted seed2 then lib.polyseed_crypt seed2 password123
                else seed2)] ∧
      (Main1.Event.printf "Seed has the 'Foo' feature\n" [] ∈ (Main1.main lib argc).events ↔
        Polyseed.has_feature seed2 Main1.FEATURE_FOO = true) ∧
      (Main1.CreateStoresFeatures lib → Main1.CreateValid lib p →
        Main1.CryptKeepsFeatures lib → Main1.CryptKeepsValid lib p →
        Main1.DecodeUndoesEncode lib p →
        seed2 = lib.polyseed_crypt seed1 password123 ∧
        seed2.features = (if argc > 1 then Main1.FEATURE_FOO else 0) ∧
        (Polyseed.has_feature seed2 Main1.FEATURE_FOO = true ↔ argc > 1) ∧
        (Main1.Event.printf "Seed has the 'Foo' feature\n" [] ∈ (Main1.main lib argc).events ↔
          argc > 1))) ∧
    ((Main1.main lib argc).outcome = .returned 0 → ∃ seed1 lang lang2 seed2,
      lib.sodium_init ≠ -1 ∧
      lib.polyseed_create (Main1.FEATURE_FOO ||| Main1.FEATURE_BAR)
        (if argc > 1 then Main1.FEATURE_FOO else 0) = .ok seed1 ∧
      Main1.get_lang_by_name lib.langs English = some lang ∧
      lib.polyseed_decode
        (lib.polyseed_encode (lib.polyseed_crypt seed1 password123) lang lib.POLYSEED_MONERO)
        lib.POLYSEED_MONERO = .ok (lang2, seed2))) ∧
    ((∀ seed1 k1 seed1' lang phrase lang2 seed2,
      hpp.create (Main2.FEATURE_FOO ||| Main2.FEATURE_BAR) hpp.POLYSEED_MONERO
        (if argc > 1 then Main2.FEATURE_FOO else 0) = .ok seed1 →
      hpp.keygen seed1 hpp.POLYSEED_MONERO 32 = .ok k1 →
      hpp.crypt seed1 hpp.POLYSEED_MONERO password123 = .ok seed1' →
      hpp.get_lang_by_name English = .ok lang →
      hpp.encode seed1' hpp.POLYSEED_MONERO lang = .ok phrase →
      hpp.decode hpp.POLYSEED_MONERO phrase = .ok (lang2, seed2) →
      (∀ v d m, Main2.Event.has_feature v d m ∈ (Main2.main hpp argc).events →
        v = .seed2 ∧ d = seed2 ∧ m = Main2.FEATURE_FOO) ∧
      Main2.Event.create .seed1 (if argc > 1 then Main2.FEATURE_FOO else 0)
        ∈ (Main2.main hpp argc).events ∧
      Main2.Event.crypt .seed1 seed1 password123 ∈ (Main2.main hpp argc).events ∧
      Main2.Event.encode .seed1 seed1' lang ∈ (Main2.main hpp argc).events ∧
      Main2.Event.decode .seed2 phrase ∈ (Main2.main hpp argc).events ∧
      Main2.Event.has_feature .seed2 seed2 Main2.FEATURE_FOO ∈ (Main2.main hpp argc).events ∧
      (Main2.Event.cout (.lit "Seed has the 'Foo' feature") ∈ (Main2.main hpp argc).events ↔
        Polyseed.has_feature seed2 Main2.FEATURE_FOO = true) ∧
      (Main2.CreateStoresFeatures hpp → Main2.CreateValid hpp p →
        Main2.CryptKeepsFeatures hpp → Main2.CryptKeepsValid hpp p →
        Main2.DecodeUndoesEncode hpp p →
        seed2 = seed1' ∧
        seed2.features = (if argc > 1 then Main2.FEATURE_FOO else 0) ∧
        (Polyseed.has_feature seed2 Main2.FEATURE_FOO = true ↔ argc > 1) ∧
        (Main2.Event.cout (.lit "Seed has the 'Foo' feature") ∈ (Main2.main hpp argc).events ↔
          argc > 1))) ∧
    ((Main2.main hpp argc).outcome = .returned 0 →
      ∃ seed1 k1 seed1' lang phrase lang2 seed2,
      hpp.create (Main2.FEATURE_FOO ||| Main2.FEATURE_BAR) hpp.POLYSEED_MONERO
        (if argc > 1 then Main2.FEATURE_FOO else 0) = .ok seed1 ∧
      hpp.keygen seed1 hpp.POLYSEED_MONERO 32 = .ok k1 ∧
      hpp.crypt seed1 hpp.POLYSEED_MONERO password123 = .ok seed1' ∧
      hpp.get_lang_by_name English = .ok lang ∧
      hpp.encode seed1' hpp.POLYSEED_MONERO lang = .ok phrase ∧
      hpp.decode hpp.POLYSEED_MONERO phrase = .ok (lang2, seed2))) := by
  refine ⟨⟨?_, Main1.c_success_only lib argc⟩, ⟨?_, ?_⟩⟩
  · intro seed1 lang lang2 seed2 h0 h1 h2 h3
    obtain ⟨_, _, _, hcalls⟩ := Main1.c_success_path lib argc seed1 seed2 lang lang2 h0 h1 h2 h3
    obtain ⟨hall, hpr⟩ := Main1.c_feature_path lib argc seed1 seed2 lang lang2 h0 h1 h2 h3
    refine ⟨hall, hcalls, hpr, ?_⟩
    intro c1 c2 c3 c4 c5
    obtain ⟨e1, e2, e3⟩ := Main1.c_feature_equal lib p argc seed1 seed2 lang lang2 h1 h2 h3
      c1 c2 c3 c4 c5
    exact ⟨e1, e2, e3, hpr.trans e3⟩
  · intro seed1 k1 seed1' lang phrase lang2 seed2 h1 h2 h3 h4 h5 h6
    obtain ⟨hall, m1, m2, m3, m4, m5, hpr⟩ := Main2.cpp_feature_path hpp argc seed1 seed1' seed2
      k1 lang lang2 phrase h1 h2 h3 h4 h5 h6
    refine ⟨hall, m1, m2, m3, m4, m5, hpr, ?_⟩
    intro c1 c2 c3 c4 c5
    obtain ⟨e1, e2, e3⟩ := Main2.cpp_feature_equal hpp p argc seed1 seed1' seed2 lang lang2
      phrase h1 h3 h5 h6 c1 c2 c3 c4 c5
    exact ⟨e1, e2, e3, hpr.trans e3⟩
  · intro h
    obtain ⟨seed1, k1, seed1', lang, phrase, lang2, seed2, _, _, h1, h2, h3, h4, h5, h6, _⟩ :=
      Main2.cpp_success_only hpp argc h
    exact ⟨seed1, k1, seed1', lang, phrase, lang2, seed2, h1, h2, h3, h4, h5, h6⟩

/-- Witness of C6: at `demoLib` and `demoHpp`, started with one argument, the
decoded seed carries `FEATURE_FOO` and both demos print the message about the
feature. -/
theorem demo_feature_survives_witness :
    ((Main1.main Main1.demoLib 2).outcome = .returned 0 ∧
      (Polyseed.has_feature ⟨[185], 1, 1, true⟩ Main1.FEATURE_FOO = true ↔ (2 : Int) > 1) ∧
      (Main1.Event.printf "Seed has the 'Foo' feature\n" [] ∈ (Main1.main Main1.demoLib 2).events
        ↔ (2 : Int) > 1)) ∧
    ((Main2.main Main2.demoHpp 2).outcome = .returned 0 ∧
      (Polyseed.has_feature ⟨[185], 1, 1, true⟩ Main2.FEATURE_FOO = true ↔ (2 : Int) > 1) ∧
      (Main2.Event.cout (.lit "Seed has the 'Foo' feature") ∈ (Main2.main Main2.demoHpp 2).events
        ↔ (2 : Int) > 1)) :=
  ⟨⟨by decide,
      (((demo_feature_survives Main1.demoLib Main2.demoHpp Polyseed.smallParams 2).1.1
        ⟨[201], 1, 1, false⟩ Polyseed.langA Polyseed.langA ⟨[185], 1, 1, true⟩
        (by decide) (by decide) (by decide) (by decide)).2.2.2
        Main1.demoLib_features Main1.demoLib_valid Main1.demoLib_keep Main1.demoLib_keepValid
        Main1.demoLib_decode).2.2.1,
      (((demo_feature_survives Main1.demoLib Main2.demoHpp Polyseed.smallParams 2).1.1
        ⟨[201], 1, 1, false⟩ Polyseed.langA Polyseed.langA ⟨[185], 1, 1, true⟩
        (by decide) (by decide) (by decide) (by decide)).2.2.2
        Main1.demoLib_features Main1.demoLib_valid Main1.demoLib_keep Main1.demoLib_keepValid
        Main1.demoLib_decode).2.2.2⟩,
    ⟨by decide,
      (((demo_feature_survives Main1.demoLib Main2.demoHpp Polyseed.smallParams 2).2.1
        ⟨[201], 1, 1, false⟩ (List.replicate 32 201) ⟨[185], 1, 1, true⟩ Polyseed.langA
        (Main1.phraseOf ⟨[185], 1, 1, true⟩) Polyseed.langA ⟨[185], 1, 1, true⟩
        (by decide) (by decide) (by decide) (by decide) (by decide) (by decide)).2.2.2.2.2.2.2
        Main2.demoHpp_features Main2.demoHpp_valid Main2.demoHpp_keep Main2.demoHpp_keepValid
        Main2.demoHpp_decode).2.2.1,
      (((demo_feature_survives Main1.demoLib Main2.demoHpp Polyseed.smallParams 2).2.1
        ⟨[201], 1, 1, false⟩ (List.replicate 32 201) ⟨[185], 1, 1, true⟩ Polyseed.langA
        (Main1.phraseOf ⟨[185], 1, 1, true⟩) Polyseed.langA ⟨[185], 1, 1, true⟩
        (by decide) (by decide) (by decide) (by decide) (by decide) (by decide)).2.2.2.2.2.2.2
        Main2.demoHpp_features Main2.demoHpp_valid Main2.demoHpp_keep Main2.demoHpp_keepValid
        Main2.demoHpp_decode).2.2.2⟩⟩

/-- C7, the code at the failing input: with a registry that has no language
named "English" the lookup returns NULL, and `main` of the C demo goes on to
call `polyseed_encode` with that NULL language instead of returning. -/
theorem Main1.main_passes_null_language :
    Main1.get_lang_by_name Main1.noEnglishLib.langs English = none ∧
    Main1.Event.polyseed_encode .seed1 ⟨[185], 1, 1, true⟩ none 0
      ∈ (Main1.main Main1.noEnglishLib 2).events ∧
    (Main1.main Main1.noEnglishLib 2).outcome = .undefined ∧
    (Main1.main Main1.noEnglishLib 2).live = [.seed1] := by
  decide

/-- Counterexample to C8 as stated: at `demoLib` the C demo returns 0 while
`key1` and `key2` still hold the derived key, 32 bytes of value 201. -/
theorem Main1.main_keys_not_wiped :
    (Main1.main Main1.demoLib 2).outcome = .returned 0 ∧
    (Main1.main Main1.demoLib 2).key1 = some (List.replicate 32 201) ∧
    (Main1.main Main1.demoLib 2).key2 = some (List.replicate 32 201) := by
  decide

/-- C8, as amended: on every return of `main` of the C demo, every seed object
obtained from create or decode has been released with `polyseed_free`; the
buffers `key1` and `key2` are not zeroed, a buffer that received a key still
holds what `polyseed_keygen` wrote to it. -/
theorem Main1.main_releases_seeds (lib : Main1.Lib) (argc : Int) (status : Int)
    (h : (Main1.main lib argc).outcome = .returned status) :
    (Main1.main lib argc).live = [] ∧
    (∀ k, (Main1.main lib argc).key1 = some k →
      ∃ d, Main1.Event.polyseed_keygen .seed1 d lib.POLYSEED_MONERO 32
          ∈ (Main1.main lib argc).events ∧
        k = lib.polyseed_keygen d lib.POLYSEED_MONERO 32) ∧
    (∀ k, (Main1.main lib argc).key2 = some k →
      ∃ d, Main1.Event.polyseed_keygen .seed2 d lib.POLYSEED_MONERO 32
          ∈ (Main1.main lib argc).events ∧
        k = lib.polyseed_keygen d lib.POLYSEED_MONERO 32) :=
  Main1.c_seeds_released lib argc status h

/-- Witness of C8 as amended: the run of the C demo at `demoLib` returns 0 with
no seed object left. -/
theorem Main1.main_releases_seeds_witness :
    (Main1.main Main1.demoLib 2).outcome = .returned 0 ∧ (Main1.main Main1.demoLib 2).live = [] :=
  ⟨by decide, (Main1.main_releases_seeds Main1.demoLib 2 0 (by decide)).1⟩

/-- C9: the normalisation callbacks are bounded. When utf8proc returns a string
`s`, `utf8_nfc` and `utf8_nfkd` each return `min (strlen s) (STR_SIZE - 1)`,
leave the first bytes of `s`, that many, at the start of `norm` with a NUL right
after them and the rest of `norm` untouched, so at most `STR_SIZE` bytes are
written, and the string in `norm` is the whole of `s` exactly when
`strlen s ≤ STR_SIZE - 1`. -/
theorem Main1.utf8_norm_bounded (utf8proc_NFC utf8proc_NFKD : CStr → Option CStr)
    (STR_SIZE : Nat) (str s1 s2 : CStr) (norm : List Nat)
    (hpos : 0 < STR_SIZE) (hmax : STR_SIZE ≤ Main1.SIZE_MAX) (hbuf : norm.length = STR_SIZE)
    (h1 : utf8proc_NFC str = some s1) (h2 : utf8proc_NFKD str = some s2) :
    (∃ r, Main1.utf8_nfc utf8proc_NFC STR_SIZE str norm = some r ∧
      r.size = min (strlen s1) (STR_SIZE - 1) ∧
      r.norm.take r.size = s1.bytes.take r.size ∧
      r.norm[r.size]? = some 0 ∧
      r.norm.drop (r.size + 1) = norm.drop (r.size + 1) ∧
      r.norm.length = STR_SIZE ∧
      r.size + 1 ≤ STR_SIZE ∧
      r.size ≤ STR_SIZE - 1 ∧
      (Main1.cstring_of r.norm = s1.bytes ↔ strlen s1 ≤ STR_SIZE - 1)) ∧
    (∃ r, Main1.utf8_nfkd utf8proc_NFKD STR_SIZE str norm = some r ∧
      r.size = min (strlen s2) (STR_SIZE - 1) ∧
      r.norm.take r.size = s2.bytes.take r.size ∧
      r.norm[r.size]? = some 0 ∧
      r.norm.drop (r.size + 1) = norm.drop (r.size + 1) ∧
      r.norm.length = STR_SIZE ∧
      r.size + 1 ≤ STR_SIZE ∧
      r.size ≤ STR_SIZE - 1 ∧
      (Main1.cstring_of r.norm = s2.bytes ↔ strlen s2 ≤ STR_SIZE - 1)) := by
  constructor
  · have hr : Main1.utf8_nfc utf8proc_NFC STR_SIZE str norm = some
        { size := Main1.MIN (strlen s1) (Main1.size_t_sub STR_SIZE 1),
          norm := (Main1.memcpy norm s1 (Main1.MIN (strlen s1) (Main1.size_t_sub STR_SIZE 1))).set
            (Main1.MIN (strlen s1) (Main1.size_t_sub STR_SIZE 1)) 0,
          scratch := List.replicate (strlen s1) 0 } := by
      simp only [Main1.utf8_nfc, h1]
    exact ⟨_, hr, Main1.callback_result norm s1 STR_SIZE _ hpos hmax hbuf rfl⟩
  · have hr : Main1.utf8_nfkd utf8proc_NFKD STR_SIZE str norm = some
        { size := Main1.MIN (strlen s2) (Main1.size_t_sub STR_SIZE 1),
          norm := (Main1.memcpy norm s2 (Main1.MIN (strlen s2) (Main1.size_t_sub STR_SIZE 1))).set
            (Main1.MIN (strlen s2) (Main1.size_t_sub STR_SIZE 1)) 0,
          scratch := List.replicate (strlen s2) 0 } := by
      simp only [Main1.utf8_nfkd, h2]
    exact ⟨_, hr, Main1.callback_result norm s2 STR_SIZE _ hpos hmax hbuf rfl⟩

/-- Witness of C9: with a four-byte `norm` and a normaliser that returns its
input, "English" is cut to its first three bytes and a NUL. -/
theorem Main1.utf8_norm_bounded_witness :
    Main1.utf8_nfc (fun s => some s) 4 English [9, 9, 9, 9]
      = some ⟨3, [69, 110, 103, 0], [0, 0, 0, 0, 0, 0, 0]⟩ ∧
    ((∃ r, Main1.utf8_nfc (fun s => some s) 4 English [9, 9, 9, 9] = some r ∧
      r.size = min (strlen English) (4 - 1) ∧
      r.norm.take r.size = English.bytes.take r.size ∧
      r.norm[r.size]? = some 0 ∧
      r.norm.drop (r.size + 1) = [9, 9, 9, 9].drop (r.size + 1) ∧
      r.norm.length = 4 ∧
      r.size + 1 ≤ 4 ∧
      r.size ≤ 4 - 1 ∧
      (Main1.cstring_of r.norm = English.bytes ↔ strlen English ≤ 4 - 1)) ∧
    (∃ r, Main1.utf8_nfkd (fun s => some s) 4 English [9, 9, 9, 9] = some r ∧
      r.size = min (strlen English) (4 - 1) ∧
      r.norm.take r.size = English.bytes.take r.size ∧
      r.norm[r.size]? = some 0 ∧
      r.norm.drop (r.size + 1) = [9, 9, 9, 9].drop (r.size + 1) ∧
      r.norm.length = 4 ∧
      r.size + 1 ≤ 4 ∧
      r.size ≤ 4 - 1 ∧
      (Main1.cstring_of r.norm = English.bytes ↔ strlen English ≤ 4 - 1))) :=
  ⟨by decide,
    Main1.utf8_norm_bounded (fun s => some s) (fun s => some s) 4 English English English
      [9, 9, 9, 9] (by decide) (by decide) rfl rfl rfl⟩

/-- C10, the code: in the C++ demo `FEATURE_QUX` has the value of `FEATURE_BAR`
and lies inside the enabled mask, while in the C demo it is 4 and lies
outside. -/
theorem Main2.FEATURE_QUX_is_FEATURE_BAR :
    Main2.FEATURE_QUX = Main2.FEATURE_BAR ∧
    Main2.FEATURE_QUX &&& (Main2.FEATURE_FOO ||| Main2.FEATURE_BAR) = 2 ∧
    Main2.FEATURE_QUX ≠ Main1.FEATURE_QUX ∧
    Main1.FEATURE_QUX = 4 ∧
    Main1.FEATURE_QUX &&& (Main1.FEATURE_FOO ||| Main1.FEATURE_BAR) = 0 := by
  decide
